import Mathlib

/-!
Shallow embedding of `src/librustc_trans/cleanup.rs`, the cleanup-scope
manager of the translation backend.

Pure data (scopes, cached exits, drop values, unwind labels) is translated
directly.  The mutable per-function state (the scope stack held in the
`FunctionContext`, the lazily allocated landing-pad scratch local, and the
instruction-building backend) is threaded explicitly through every
operation.  Basic blocks and LLVM values are numeric handles allocated from
counters; the builder backend is modelled by a per-block instruction list,
with the most recently created block at the head of the list.  Operations
that `assert!`, `unwrap()` or index unconditionally in the source return
`Option` and yield `none` exactly where the source would abort.

Representation choice: the Rust code stores the scope stack in a `Vec` with
the top of the stack at the *end*; here the stack is a `List CleanupScope`
with the top of the stack at the *head*.  A `CustomScopeIndex` (a stable
bottom-based index captured at push time) therefore refers to list position
`length - 1 - index` from the head.
-/

namespace Cleanup

abbrev ValueRef := Nat
abbrev BasicBlockRef := Nat
abbrev Ty := Nat

/-- Model of `DropValue`: one scheduled destruction obligation
(`val`, `ty`, `skip_dtor`). -/
structure DropValue where
  val : ValueRef
  ty : Ty
  skip_dtor : Bool
deriving DecidableEq

/-- Model of `UnwindKind`: the tagged unwind label, either a table-protocol
landing pad or a funclet-protocol cleanup pad carrying its pad value. -/
inductive UnwindKind where
  | LandingPad : UnwindKind
  | CleanupPad : ValueRef → UnwindKind
deriving DecidableEq

/-- Model of `impl PartialEq for UnwindKind`: equality is decided by tag
alone; the `CleanupPad` payload is ignored. -/
def UnwindKind.eq : UnwindKind → UnwindKind → Bool
  | .LandingPad, .LandingPad => true
  | .CleanupPad _, .CleanupPad _ => true
  | _, _ => false

/-- Model of `CachedEarlyExit`: a cached cleanup block for a label together
with the number of cleanups already baked into it. -/
structure CachedEarlyExit where
  label : UnwindKind
  cleanup_block : BasicBlockRef
  last_cleanup : Nat
deriving DecidableEq

/-- Model of `CleanupScope`. -/
structure CleanupScope where
  cleanups : List DropValue
  cached_early_exits : List CachedEarlyExit
  cached_landing_pad : Option BasicBlockRef
deriving DecidableEq

/-- Model of `common::Funclet`: the funclet context attached to a block by
`set_funclet`, either an MSVC cleanup pad or the generic GNU context. -/
inductive Funclet where
  | msvc : ValueRef → Funclet
  | gnu : Funclet
deriving DecidableEq

/-- Instructions emitted through the builder backend, one constructor per
builder call performed by cleanup.rs. -/
inductive Instr where
  | drop_glue : ValueRef → Ty → Bool → Option Funclet → Instr
  | set_personality : Instr
  | cleanup_pad : ValueRef → Instr
  | landing_pad : ValueRef → Instr
  | set_cleanup : ValueRef → Instr
  | lifetime_start : ValueRef → Instr
  | store : ValueRef → ValueRef → Instr
  | load : ValueRef → ValueRef → Instr
  | lifetime_end : ValueRef → Instr
  | resume : ValueRef → Instr
  | extract_value : ValueRef → ValueRef → Nat → Instr
  | call_unwind_resume : ValueRef → Option Funclet → Instr
  | cleanup_ret : ValueRef → Option BasicBlockRef → Instr
  | br : BasicBlockRef → Instr
deriving DecidableEq

/-- One basic block of the function under translation: its handle, the
instructions emitted into it so far, and its funclet context. -/
structure BlockData where
  bid : BasicBlockRef
  instrs : List Instr
  funclet : Option Funclet
deriving DecidableEq

/-- Model of the `FunctionContext` state used by cleanup.rs, together with
the builder backend's state (blocks, handle counters) and the two
target-dependent flags read by the algorithm. -/
structure FunctionContext where
  scopes : List CleanupScope
  landingpad_alloca : Option ValueRef
  blocks : List BlockData
  next_block : Nat
  next_value : Nat
  wants_msvc_seh : Bool
  custom_unwind_resume : Bool
deriving DecidableEq

namespace FunctionContext

/-- Model of `build_new_block`: allocate a fresh, empty basic block.
Display names are a pure debugging aid in the source and are not
modelled. -/
def build_new_block (s : FunctionContext) : BasicBlockRef × FunctionContext :=
  (s.next_block,
   { s with blocks := ⟨s.next_block, [], none⟩ :: s.blocks,
            next_block := s.next_block + 1 })

/-- Allocate a fresh LLVM value handle. -/
def fresh (s : FunctionContext) : ValueRef × FunctionContext :=
  (s.next_value, { s with next_value := s.next_value + 1 })

end FunctionContext

/-- Apply `f` to the first block in the list whose handle is `b`. -/
def updateBlocks (b : BasicBlockRef) (f : BlockData → BlockData) :
    List BlockData → List BlockData
  | [] => []
  | blk :: rest =>
    if blk.bid = b then f blk :: rest else blk :: updateBlocks b f rest

namespace FunctionContext

/-- Emit one instruction at the end of block `b`. -/
def emit (s : FunctionContext) (b : BasicBlockRef) (i : Instr) : FunctionContext :=
  { s with blocks := updateBlocks b (fun blk => { blk with instrs := blk.instrs ++ [i] }) s.blocks }

/-- Model of `set_funclet` on block `b`. -/
def set_funclet (s : FunctionContext) (b : BasicBlockRef) (f : Funclet) : FunctionContext :=
  { s with blocks := updateBlocks b (fun blk => { blk with funclet := some f }) s.blocks }

/-- Instructions of block `b` (empty if no such block exists). -/
def blockInstrs (s : FunctionContext) (b : BasicBlockRef) : List Instr :=
  match s.blocks.find? (fun blk => blk.bid = b) with
  | some blk => blk.instrs
  | none => []

/-- Funclet context of block `b`, as read by `bcx.funclet()`. -/
def blockFunclet (s : FunctionContext) (b : BasicBlockRef) : Option Funclet :=
  match s.blocks.find? (fun blk => blk.bid = b) with
  | some blk => blk.funclet
  | none => none

end FunctionContext

namespace CleanupScope

/-- Model of `CleanupScope::new`. -/
def new : CleanupScope := ⟨[], [], none⟩

/-- Model of `CleanupScope::cached_early_exit`: search the cached exits,
most recent first, for one whose label equals (tag-wise) the given label. -/
def cached_early_exit (sc : CleanupScope) (label : UnwindKind) :
    Option (BasicBlockRef × Nat) :=
  (sc.cached_early_exits.reverse.find? (fun e => UnwindKind.eq e.label label)).map
    (fun e => (e.cleanup_block, e.last_cleanup))

/-- Model of `CleanupScope::add_cached_early_exit`. -/
def add_cached_early_exit (sc : CleanupScope) (label : UnwindKind)
    (blk : BasicBlockRef) (last_cleanup : Nat) : CleanupScope :=
  { sc with cached_early_exits :=
      sc.cached_early_exits ++ [⟨label, blk, last_cleanup⟩] }

/-- Model of `CleanupScope::needs_invoke`. -/
def needs_invoke (sc : CleanupScope) : Bool :=
  sc.cached_landing_pad.isSome || !sc.cleanups.isEmpty

end CleanupScope

/-- Replace the element at head-position `n` by `f` of it. -/
def updateScopeAt (n : Nat) (f : CleanupScope → CleanupScope) :
    List CleanupScope → List CleanupScope
  | [] => []
  | sc :: rest =>
    match n with
    | 0 => f sc :: rest
    | m + 1 => sc :: updateScopeAt m f rest

/-- The rewrite `schedule_clean` applies to the target scope: append the
cleanup and invalidate the cached landing pad. -/
def schedUpd (cleanup : DropValue) (sc : CleanupScope) : CleanupScope :=
  { sc with cleanups := sc.cleanups ++ [cleanup], cached_landing_pad := none }

namespace UnwindKind

/-- Model of `UnwindKind::branch`: branch from `from_b` to `to`, using
`cleanupret` for the funclet protocol and `br` for the table protocol. -/
def branch (l : UnwindKind) (s : FunctionContext) (from_b : BasicBlockRef)
    (to_llbb : BasicBlockRef) : FunctionContext :=
  match l with
  | .CleanupPad pad => s.emit from_b (.cleanup_ret pad (some to_llbb))
  | .LandingPad => s.emit from_b (.br to_llbb)

/-- Model of `UnwindKind::start`: prepare a freshly built block for this
kind of exit label, returning the possibly updated label. -/
def start (l : UnwindKind) (b : BasicBlockRef) (s : FunctionContext) :
    UnwindKind × FunctionContext :=
  match l with
  | .CleanupPad _ =>
    let pad := s.fresh
    (UnwindKind.CleanupPad pad.1,
     (pad.2.emit b (.cleanup_pad pad.1)).set_funclet b (.msvc pad.1))
  | .LandingPad => (UnwindKind.LandingPad, s.set_funclet b .gnu)

end UnwindKind

namespace DropValue

/-- Model of `DropValue::trans`: the external `glue::call_drop_glue` is the
instruction-building collaborator; it emits the drop at the current code
position and returns that position. -/
def trans (c : DropValue) (funclet : Option Funclet) (b : BasicBlockRef)
    (s : FunctionContext) : BasicBlockRef × FunctionContext :=
  (b, s.emit b (.drop_glue c.val c.ty c.skip_dtor funclet))

end DropValue

/-- Run a list of cleanups at code position `b`, threading the state; each
iteration reads the block's funclet as `bcx.funclet()` does. -/
def transDrops (b : BasicBlockRef) : List DropValue → FunctionContext → FunctionContext
  | [], s => s
  | c :: cs, s => transDrops b cs (c.trans (s.blockFunclet b) b s).2

namespace FunctionContext

/-- Model of `push_scope`. -/
def push_scope (s : FunctionContext) (sc : CleanupScope) : FunctionContext :=
  { s with scopes := sc :: s.scopes }

/-- Model of `push_custom_cleanup_scope`: returns the stable (bottom-based)
index of the new scope. -/
def push_custom_cleanup_scope (s : FunctionContext) : Nat × FunctionContext :=
  (s.scopes.length, s.push_scope CleanupScope.new)

/-- Model of `schedule_clean`: append a cleanup to the scope at the given
stable index and invalidate that scope's cached landing pad.  The
`is_valid_custom_scope` assertion becomes the `none` case. -/
def schedule_clean (s : FunctionContext) (custom_scope : Nat)
    (cleanup : DropValue) : Option FunctionContext :=
  if custom_scope < s.scopes.length then
    some { s with scopes :=
      updateScopeAt (s.scopes.length - 1 - custom_scope) (schedUpd cleanup) s.scopes }
  else none

/-- Model of `schedule_drop_mem`; `needs_drop` is the type system's
`type_needs_drop` collaborator. -/
def schedule_drop_mem (needs_drop : Ty → Bool) (s : FunctionContext)
    (cleanup_scope : Nat) (val : ValueRef) (ty : Ty) : Option FunctionContext :=
  if !needs_drop ty then some s
  else s.schedule_clean cleanup_scope ⟨val, ty, false⟩

/-- Model of `schedule_drop_adt_contents`. -/
def schedule_drop_adt_contents (needs_drop : Ty → Bool) (s : FunctionContext)
    (cleanup_scope : Nat) (val : ValueRef) (ty : Ty) : Option FunctionContext :=
  if !needs_drop ty then some s
  else s.schedule_clean cleanup_scope ⟨val, ty, true⟩

/-- Model of `pop_and_trans_custom_cleanup_scope`: the index must denote
the current top of the stack; the scope is popped and its cleanups run in
reverse scheduling order at code position `bcx`. -/
def pop_and_trans_custom_cleanup_scope (s : FunctionContext)
    (bcx : BasicBlockRef) (custom_scope : Nat) :
    Option (BasicBlockRef × FunctionContext) :=
  if custom_scope < s.scopes.length ∧ custom_scope = s.scopes.length - 1 then
    match s.scopes with
    | [] => none
    | scope :: rest =>
      some (bcx, transDrops bcx scope.cleanups.reverse { s with scopes := rest })
  else none

end FunctionContext

/-- The first loop of `get_landing_pad`: pop scopes that need no invoke,
in removal order; `none` models the `unwrap` panic when the whole stack is
popped without finding a scope that needs invoke. -/
def popNoInvoke : List CleanupScope → Option (List CleanupScope × List CleanupScope)
  | [] => none
  | sc :: rest =>
    if sc.needs_invoke then some ([], sc :: rest)
    else (popNoInvoke rest).map (fun pr => (sc :: pr.1, pr.2))

/-- The first loop of `trans_cleanups_to_exit_scope`: pop scopes into
`popped_scopes` (removal order, original top first) until a cached early
exit for the label is found or the stack is exhausted.  Returns the popped
scopes, the remaining stack, and the cache hit if any. -/
def popUntilCached (label : UnwindKind) :
    List CleanupScope → List CleanupScope × List CleanupScope × Option (BasicBlockRef × Nat)
  | [] => ([], [], none)
  | sc :: rest =>
    match sc.cached_early_exit label with
    | some hit => ([sc], rest, some hit)
    | none =>
      let r := popUntilCached label rest
      (sc :: r.1, r.2.1, r.2.2)

/-- The empty-stack arm of `trans_cleanups_to_exit_scope`: synthesize the
terminal resume block.  `none` models the `unwrap` of `landingpad_alloca`
when no landing pad was ever built under the table protocol. -/
def genResume (label : UnwindKind) (s : FunctionContext) :
    Option (BasicBlockRef × FunctionContext) :=
  let bb := s.build_new_block
  match label with
  | .LandingPad =>
    match bb.2.landingpad_alloca with
    | none => none
    | some addr =>
      let lp := bb.2.fresh
      let s1 := (lp.2.emit bb.1 (.load lp.1 addr)).emit bb.1 (.lifetime_end addr)
      if s1.custom_unwind_resume then
        let exc := s1.fresh
        let s2 := exc.2.emit bb.1 (.extract_value exc.1 lp.1 0)
        some (bb.1, s2.emit bb.1 (.call_unwind_resume exc.1 (s2.blockFunclet bb.1)))
      else
        some (bb.1, s1.emit bb.1 (.resume lp.1))
  | .CleanupPad _ =>
    let pad := bb.2.fresh
    some (bb.1, (pad.2.emit bb.1 (.cleanup_pad pad.1)).emit bb.1 (.cleanup_ret pad.1 none))

/-- The second loop of `trans_cleanups_to_exit_scope`: replay the popped
scopes in reverse removal order (the argument list is already reversed, so
its head is processed first), generating one block per scope with pending
cleanups, and push every scope back onto the stack. -/
def replay (label : UnwindKind) :
    List CleanupScope → BasicBlockRef → Nat → FunctionContext →
    BasicBlockRef × FunctionContext
  | [], prev, _, s => (prev, s)
  | scope :: rest, prev, skip, s =>
    if scope.cleanups.isEmpty then
      replay label rest prev skip (s.push_scope scope)
    else
      let bb := s.build_new_block
      let st := label.start bb.1 bb.2
      let len := scope.cleanups.length
      let s1 := transDrops bb.1 (scope.cleanups.reverse.take (len - skip)) st.2
      let s2 := st.1.branch s1 bb.1 prev
      replay label rest bb.1 0
        (s2.push_scope (scope.add_cached_early_exit st.1 bb.1 len))

/-- Model of `trans_cleanups_to_exit_scope`. -/
def trans_cleanups_to_exit_scope (label : UnwindKind) (s : FunctionContext) :
    Option (BasicBlockRef × FunctionContext) :=
  match popUntilCached label s.scopes with
  | (popped, remaining, some hit) =>
    some (replay label popped.reverse hit.1 hit.2 { s with scopes := remaining })
  | (popped, remaining, none) =>
    match genResume label { s with scopes := remaining } with
    | none => none
    | some pr => some (replay label popped.reverse pr.1 0 pr.2)

/-- The part of `get_landing_pad` that builds the landing-pad block's
contents for a cache miss and selects the function's unwind label: the
MSVC branch emits a personality marker and a cleanup pad; the table branch
emits the landing-pad instruction, marks it as cleanup, lazily allocates
the per-function scratch local, and stores the exception record there. -/
def build_landing_pad_val (s2 : FunctionContext) (pad : BasicBlockRef) :
    UnwindKind × FunctionContext :=
  if s2.wants_msvc_seh then
    let s3 := s2.emit pad .set_personality
    let pv := s3.fresh
    (UnwindKind.CleanupPad pv.1, pv.2.emit pad (.cleanup_pad pv.1))
  else
    let lr := s2.fresh
    let s3 := (lr.2.emit pad (.landing_pad lr.1)).emit pad (.set_cleanup lr.1)
    let ai : ValueRef × FunctionContext :=
      match s3.landingpad_alloca with
      | some addr => (addr, s3)
      | none =>
        let a := s3.fresh
        let s4 := a.2.emit pad (.lifetime_start a.1)
        (a.1, { s4 with landingpad_alloca := some a.1 })
    (UnwindKind.LandingPad, ai.2.emit pad (.store lr.1 ai.1))

/-- The state after allocating the landing-pad block and caching it on the
owner scope (the cache is filled in before the block is fully built, as in
the source). `s1` is the stack with the set-aside scopes removed, so its
scopes are `top :: rest`. -/
def padState (s1 : FunctionContext) (top : CleanupScope) (rest : List CleanupScope) :
    FunctionContext :=
  { s1.build_new_block.2 with scopes :=
      ({ top with cached_landing_pad := some s1.build_new_block.1 } : CleanupScope) :: rest }

/-- The cache-miss path of `get_landing_pad`: build the pad block, cache
it, construct the unwind label value, generate the cleanup chain, and make
the pad branch to it. -/
def glp_miss (s1 : FunctionContext) (top : CleanupScope) (rest : List CleanupScope) :
    Option (BasicBlockRef × FunctionContext) :=
  match trans_cleanups_to_exit_scope
      (build_landing_pad_val (padState s1 top rest) s1.next_block).1
      (build_landing_pad_val (padState s1 top rest) s1.next_block).2 with
  | none => none
  | some cb =>
    some (s1.next_block,
      (build_landing_pad_val (padState s1 top rest) s1.next_block).1.branch
        cb.2 s1.next_block cb.1)

/-- Model of `get_landing_pad`. -/
def get_landing_pad (s : FunctionContext) : Option (BasicBlockRef × FunctionContext) :=
  if s.scopes.length = 0 then none else
  match popNoInvoke s.scopes with
  | none => none
  | some (_, []) => none
  | some (popped, top :: rest) =>
    match top.cached_landing_pad with
    | some llbb => some (llbb, { s with scopes := popped ++ (top :: rest) })
    | none =>
      match glp_miss { s with scopes := top :: rest } top rest with
      | none => none
      | some pb => some (pb.1, { pb.2 with scopes := popped ++ pb.2.scopes })

/-- One step of the public interface of the cleanup module. -/
inductive Step : FunctionContext → FunctionContext → Prop where
  | push (s : FunctionContext) : Step s (s.push_custom_cleanup_scope).2
  | sched {s s' : FunctionContext} {i : Nat} {c : DropValue}
      (h : s.schedule_clean i c = some s') : Step s s'
  | poptrans {s s' : FunctionContext} {bcx b : BasicBlockRef} {i : Nat}
      (h : s.pop_and_trans_custom_cleanup_scope bcx i = some (b, s')) : Step s s'
  | glp {s s' : FunctionContext} {b : BasicBlockRef}
      (h : get_landing_pad s = some (b, s')) : Step s s'
  | tcte {s s' : FunctionContext} {l : UnwindKind} {b : BasicBlockRef}
      (h : trans_cleanups_to_exit_scope l s = some (b, s')) : Step s s'

/-- The empty state at the start of a function's translation. -/
def initState (msvc cur : Bool) : FunctionContext :=
  ⟨[], none, [], 0, 0, msvc, cur⟩

/-- States reachable through the interface from the start of a function's
translation. -/
inductive Reachable : FunctionContext → Prop where
  | init (msvc cur : Bool) : Reachable (initState msvc cur)
  | step {s s' : FunctionContext} (hr : Reachable s) (hs : Step s s') : Reachable s'

/-- Signature of a drop-glue instruction: the scheduled action it runs. -/
def dropSig : Instr → Option (ValueRef × Ty × Bool)
  | .drop_glue v t sd _ => some (v, t, sd)
  | _ => none

/-- The drop actions emitted in an instruction list, in emission order. -/
def dropsOf (l : List Instr) : List (ValueRef × Ty × Bool) :=
  l.filterMap dropSig

/-- The drop action a `DropValue` runs. -/
def DropValue.sig (c : DropValue) : ValueRef × Ty × Bool := (c.val, c.ty, c.skip_dtor)

/-- Does the instruction run drop glue for value handle `n`? -/
def dropsVal (n : ValueRef) : Instr → Bool
  | .drop_glue v _ _ _ => v == n
  | _ => false

/-- How `trans_cleanups_to_exit_scope` rewrites one replayed scope: a scope
with no pending cleanups is passed through unchanged; a scope with pending
cleanups gets exactly one new cached early exit appended, whose label is
tag-equal to the target label. -/
def ReplayRel (label : UnwindKind) (a b : CleanupScope) : Prop :=
  (a.cleanups = [] ∧ b = a) ∨
  (a.cleanups ≠ [] ∧ ∃ e : CachedEarlyExit, UnwindKind.eq e.label label = true ∧
    e.last_cleanup = a.cleanups.length ∧
    b = { a with cached_early_exits := a.cached_early_exits ++ [e] })

/-- How a whole run of the exit-chain builder rewrites one scope: scopes
below the cache hit are untouched, replayed scopes follow `ReplayRel`. -/
def TcteRel (label : UnwindKind) (a b : CleanupScope) : Prop :=
  b = a ∨ ReplayRel label a b

/-- How the exit-chain builder may rewrite one scope overall: cleanups and
the cached landing pad are untouched, and cached early exits only grow. -/
def StackRel (a b : CleanupScope) : Prop :=
  b.cleanups = a.cleanups ∧ b.cached_landing_pad = a.cached_landing_pad ∧
  (∃ t, b.cached_early_exits = a.cached_early_exits ++ t)

/-- How `get_landing_pad` may rewrite one scope: cleanups are untouched,
cached early exits only grow, and the cached landing pad is either
untouched or freshly filled in (never cleared). -/
def GlpRel (a b : CleanupScope) : Prop :=
  b.cleanups = a.cleanups ∧
  (∃ t, b.cached_early_exits = a.cached_early_exits ++ t) ∧
  (b.cached_landing_pad = a.cached_landing_pad ∨ a.cached_landing_pad = none)

/-- The structural invariant of a single scope: every cached early exit
records a consumed count within the current cleanup list, and only scopes
that ever had cleanups carry cached early exits. -/
def ScopeInv (sc : CleanupScope) : Prop :=
  (∀ e ∈ sc.cached_early_exits, e.last_cleanup ≤ sc.cleanups.length) ∧
  (sc.cached_early_exits ≠ [] → sc.cleanups ≠ [])

/-- A block after appending the drop-glue instructions for `L`, tagged with
the block's funclet. -/
def withDrops (blk : BlockData) (L : List DropValue) : BlockData :=
  let is := blk.instrs ++ L.map (fun c => Instr.drop_glue c.val c.ty c.skip_dtor blk.funclet)
  { blk with instrs := is }

/-- Every scope on the stack satisfies the structural invariant. -/
def StateInv (s : FunctionContext) : Prop :=
  ∀ sc ∈ s.scopes, ScopeInv sc

/-- A drop value used in concrete executions. -/
def dv (n : Nat) : DropValue := ⟨n, 1, false⟩

/-- Concrete state, one scope holding one cleanup, with the landing-pad
scratch local already allocated. -/
def exOne : FunctionContext := ⟨[⟨[dv 1], [], none⟩], some 0, [], 0, 1, false, false⟩

/-- First exit-chain run on `exOne`. -/
def exOneR1 : BasicBlockRef × FunctionContext :=
  (trans_cleanups_to_exit_scope .LandingPad exOne).getD (0, exOne)

/-- Second exit-chain run, on the state left by the first. -/
def exOneR2 : BasicBlockRef × FunctionContext :=
  (trans_cleanups_to_exit_scope .LandingPad exOneR1.2).getD (0, exOneR1.2)

/-- Concrete stack for the intermediate-scope scenario: bottom scope A
(index 0) holds `dv 1`, middle scope M (index 1) holds `dv 2`, top scope T
(index 2) holds `dv 3`; head of the list is the top. -/
def exMid : FunctionContext :=
  ⟨[⟨[dv 3], [], none⟩, ⟨[dv 2], [], none⟩, ⟨[dv 1], [], none⟩],
   some 0, [], 0, 1, false, false⟩

/-- First exit-chain run on `exMid`. -/
def exMidR1 : BasicBlockRef × FunctionContext :=
  (trans_cleanups_to_exit_scope .LandingPad exMid).getD (0, exMid)

/-- `exMid` after the first run and scheduling `dv 42` into the
intermediate scope M (stable index 1). -/
def exMidSched : FunctionContext :=
  (exMidR1.2.schedule_clean 1 (dv 42)).getD exMidR1.2

/-- Second exit-chain run, after the intermediate-scope schedule. -/
def exMidR2 : BasicBlockRef × FunctionContext :=
  (trans_cleanups_to_exit_scope .LandingPad exMidSched).getD (0, exMidSched)

/-- Landing-pad staleness scenario, built through the public interface:
push scope A, schedule `dv 1` into it, resolve a landing pad, push scope T,
schedule `dv 2` into it, resolve a landing pad again. -/
def exPadA : FunctionContext :=
  ((initState false false).push_custom_cleanup_scope).2

def exPadB : FunctionContext := (exPadA.schedule_clean 0 (dv 1)).getD exPadA

def exPadG1 : BasicBlockRef × FunctionContext :=
  (get_landing_pad exPadB).getD (0, exPadB)

def exPadC : FunctionContext := (exPadG1.2.push_custom_cleanup_scope).2

def exPadD : FunctionContext := (exPadC.schedule_clean 1 (dv 2)).getD exPadC

def exPadG2 : BasicBlockRef × FunctionContext :=
  (get_landing_pad exPadD).getD (0, exPadD)

/-- Schedule `dv 42` into scope A, whose landing pad was cached by the
first resolution. -/
def exPadE : FunctionContext := (exPadG2.2.schedule_clean 0 (dv 42)).getD exPadG2.2

/-- Landing-pad resolution after the staleness-inducing schedule. -/
def exPadG3 : BasicBlockRef × FunctionContext :=
  (get_landing_pad exPadE).getD (0, exPadE)

/-- A reachable state with a cached early exit, built through the
interface: push, schedule, one funclet-protocol exit-chain computation. -/
def exReach1 : FunctionContext := ((initState false false).push_custom_cleanup_scope).2

def exReach2 : FunctionContext := (exReach1.schedule_clean 0 (dv 7)).getD exReach1

def exReach3 : FunctionContext :=
  ((trans_cleanups_to_exit_scope (.CleanupPad 0) exReach2).getD (0, exReach2)).2

/-- The instructions of the terminal resume block under the table
protocol: reload the stored exception record from the scratch local and
resume, or, on targets that require an explicit call, extract the
exception pointer and call the unwind-resume entry point. -/
def resumeInstrsLP (s : FunctionContext) (addr : ValueRef) : List Instr :=
  if s.custom_unwind_resume then
    [.load s.next_value addr, .lifetime_end addr,
     .extract_value (s.next_value + 1) s.next_value 0,
     .call_unwind_resume (s.next_value + 1) none]
  else
    [.load s.next_value addr, .lifetime_end addr, .resume s.next_value]

/-- The state after synthesizing the table-protocol resume block on an
empty stack: exactly one new block, nothing else changed. -/
def resumeStateLP (s : FunctionContext) (addr : ValueRef) : FunctionContext :=
  { s with blocks := ⟨s.next_block, resumeInstrsLP s addr, none⟩ :: s.blocks,
           next_block := s.next_block + 1,
           next_value := s.next_value + (if s.custom_unwind_resume then 2 else 1) }

/-- The state after synthesizing the funclet-protocol resume block on an
empty stack: one new block holding a fresh cleanup pad and a
cleanup-return with no successor. -/
def resumeStateCP (s : FunctionContext) : FunctionContext :=
  { s with blocks := ⟨s.next_block, [.cleanup_pad s.next_value, .cleanup_ret s.next_value none], none⟩ :: s.blocks,
           next_block := s.next_block + 1,
           next_value := s.next_value + 1 }

/-- Concrete state for the normal-close scenario: one open scope holding
two cleanups, and an existing code position (block 0). -/
def exPop : FunctionContext :=
  ⟨[⟨[dv 5, dv 6], [], none⟩], none, [⟨0, [], none⟩], 1, 0, false, false⟩

def exPopR : BasicBlockRef × FunctionContext :=
  (exPop.pop_and_trans_custom_cleanup_scope 0 0).getD (0, exPop)

/-- Concrete state for the two-scope exit-chain scenario of the spec:
scope A (outer) holds one cleanup, scope B (inner, top) holds two. -/
def exC2 : FunctionContext :=
  ⟨[⟨[dv 21, dv 22], [], none⟩, ⟨[dv 11], [], none⟩], some 0, [], 0, 1, false, false⟩

def exC2R : BasicBlockRef × FunctionContext :=
  (trans_cleanups_to_exit_scope .LandingPad exC2).getD (0, exC2)

/-! ### Projection lemmas for the primitive state operations -/

@[simp] theorem emit_scopes (s : FunctionContext) (b : BasicBlockRef) (i : Instr) :
    (s.emit b i).scopes = s.scopes := rfl

@[simp] theorem emit_lpa (s : FunctionContext) (b : BasicBlockRef) (i : Instr) :
    (s.emit b i).landingpad_alloca = s.landingpad_alloca := rfl

@[simp] theorem emit_next_block (s : FunctionContext) (b : BasicBlockRef) (i : Instr) :
    (s.emit b i).next_block = s.next_block := rfl

@[simp] theorem emit_next_value (s : FunctionContext) (b : BasicBlockRef) (i : Instr) :
    (s.emit b i).next_value = s.next_value := rfl

@[simp] theorem emit_msvc (s : FunctionContext) (b : BasicBlockRef) (i : Instr) :
    (s.emit b i).wants_msvc_seh = s.wants_msvc_seh := rfl

@[simp] theorem emit_cur (s : FunctionContext) (b : BasicBlockRef) (i : Instr) :
    (s.emit b i).custom_unwind_resume = s.custom_unwind_resume := rfl

@[simp] theorem set_funclet_scopes (s : FunctionContext) (b : BasicBlockRef) (f : Funclet) :
    (s.set_funclet b f).scopes = s.scopes := rfl

@[simp] theorem set_funclet_lpa (s : FunctionContext) (b : BasicBlockRef) (f : Funclet) :
    (s.set_funclet b f).landingpad_alloca = s.landingpad_alloca := rfl

@[simp] theorem set_funclet_next_block (s : FunctionContext) (b : BasicBlockRef) (f : Funclet) :
    (s.set_funclet b f).next_block = s.next_block := rfl

@[simp] theorem set_funclet_msvc (s : FunctionContext) (b : BasicBlockRef) (f : Funclet) :
    (s.set_funclet b f).wants_msvc_seh = s.wants_msvc_seh := rfl

@[simp] theorem set_funclet_cur (s : FunctionContext) (b : BasicBlockRef) (f : Funclet) :
    (s.set_funclet b f).custom_unwind_resume = s.custom_unwind_resume := rfl

@[simp] theorem fresh_fst (s : FunctionContext) : s.fresh.1 = s.next_value := rfl

@[simp] theorem fresh_scopes (s : FunctionContext) : s.fresh.2.scopes = s.scopes := rfl

@[simp] theorem fresh_lpa (s : FunctionContext) :
    s.fresh.2.landingpad_alloca = s.landingpad_alloca := rfl

@[simp] theorem fresh_blocks (s : FunctionContext) : s.fresh.2.blocks = s.blocks := rfl

@[simp] theorem fresh_next_block (s : FunctionContext) :
    s.fresh.2.next_block = s.next_block := rfl

@[simp] theorem fresh_msvc (s : FunctionContext) :
    s.fresh.2.wants_msvc_seh = s.wants_msvc_seh := rfl

@[simp] theorem fresh_cur (s : FunctionContext) :
    s.fresh.2.custom_unwind_resume = s.custom_unwind_resume := rfl

@[simp] theorem build_fst (s : FunctionContext) : s.build_new_block.1 = s.next_block := rfl

@[simp] theorem build_scopes (s : FunctionContext) :
    s.build_new_block.2.scopes = s.scopes := rfl

@[simp] theorem build_lpa (s : FunctionContext) :
    s.build_new_block.2.landingpad_alloca = s.landingpad_alloca := rfl

@[simp] theorem build_blocks (s : FunctionContext) :
    s.build_new_block.2.blocks = ⟨s.next_block, [], none⟩ :: s.blocks := rfl

@[simp] theorem build_next_block (s : FunctionContext) :
    s.build_new_block.2.next_block = s.next_block + 1 := rfl

@[simp] theorem build_next_value (s : FunctionContext) :
    s.build_new_block.2.next_value = s.next_value := rfl

@[simp] theorem build_msvc (s : FunctionContext) :
    s.build_new_block.2.wants_msvc_seh = s.wants_msvc_seh := rfl

@[simp] theorem build_cur (s : FunctionContext) :
    s.build_new_block.2.custom_unwind_resume = s.custom_unwind_resume := rfl

@[simp] theorem push_scope_scopes (s : FunctionContext) (sc : CleanupScope) :
    (s.push_scope sc).scopes = sc :: s.scopes := rfl

@[simp] theorem push_scope_lpa (s : FunctionContext) (sc : CleanupScope) :
    (s.push_scope sc).landingpad_alloca = s.landingpad_alloca := rfl

@[simp] theorem push_scope_blocks (s : FunctionContext) (sc : CleanupScope) :
    (s.push_scope sc).blocks = s.blocks := rfl

@[simp] theorem push_scope_next_block (s : FunctionContext) (sc : CleanupScope) :
    (s.push_scope sc).next_block = s.next_block := rfl

@[simp] theorem push_scope_msvc (s : FunctionContext) (sc : CleanupScope) :
    (s.push_scope sc).wants_msvc_seh = s.wants_msvc_seh := rfl

@[simp] theorem push_scope_cur (s : FunctionContext) (sc : CleanupScope) :
    (s.push_scope sc).custom_unwind_resume = s.custom_unwind_resume := rfl

/-! ### Lemmas about the block store -/

@[simp] theorem emit_blocks (s : FunctionContext) (b : BasicBlockRef) (i : Instr) :
    (s.emit b i).blocks =
      updateBlocks b (fun blk => { blk with instrs := blk.instrs ++ [i] }) s.blocks := rfl

@[simp] theorem set_funclet_blocks (s : FunctionContext) (b : BasicBlockRef) (f : Funclet) :
    (s.set_funclet b f).blocks =
      updateBlocks b (fun blk => { blk with funclet := some f }) s.blocks := rfl

theorem updateBlocks_cons_self (b : BasicBlockRef) (f : BlockData → BlockData)
    (blk : BlockData) (l : List BlockData) (h : blk.bid = b) :
    updateBlocks b f (blk :: l) = f blk :: l := by
  simp [updateBlocks, h]

theorem updateBlocks_cons_ne (b : BasicBlockRef) (f : BlockData → BlockData)
    (blk : BlockData) (l : List BlockData) (h : ¬ blk.bid = b) :
    updateBlocks b f (blk :: l) = blk :: updateBlocks b f l := by
  simp [updateBlocks, h]

theorem find?_updateBlocks (b : BasicBlockRef) (f : BlockData → BlockData)
    (hbid : ∀ x, (f x).bid = x.bid) (l : List BlockData) :
    (updateBlocks b f l).find? (fun blk => blk.bid = b) =
      (l.find? (fun blk => blk.bid = b)).map f := by
  induction l with
  | nil => rfl
  | cons blk rest ih =>
    by_cases h : blk.bid = b
    · rw [updateBlocks_cons_self b f blk rest h]
      rw [List.find?_cons_of_pos, List.find?_cons_of_pos] <;>
        simp [h, hbid]
    · rw [updateBlocks_cons_ne b f blk rest h]
      rw [List.find?_cons_of_neg, List.find?_cons_of_neg] <;>
        simp [h, ih]

theorem find?_updateBlocks_other (b b' : BasicBlockRef) (f : BlockData → BlockData)
    (hbid : ∀ x, (f x).bid = x.bid) (hne : ¬ b' = b) (l : List BlockData) :
    (updateBlocks b f l).find? (fun blk => blk.bid = b') =
      l.find? (fun blk => blk.bid = b') := by
  induction l with
  | nil => rfl
  | cons blk rest ih =>
    by_cases h : blk.bid = b
    · rw [updateBlocks_cons_self b f blk rest h]
      have h2 : ¬ blk.bid = b' := fun hh => hne (hh ▸ h ▸ rfl)
      have h3 : ¬ (f blk).bid = b' := by rw [hbid]; exact h2
      rw [List.find?_cons_of_neg, List.find?_cons_of_neg] <;> simp [h2, h3]
    · rw [updateBlocks_cons_ne b f blk rest h]
      by_cases h2 : blk.bid = b'
      · rw [List.find?_cons_of_pos, List.find?_cons_of_pos] <;> simp [h2]
      · rw [List.find?_cons_of_neg, List.find?_cons_of_neg] <;> simp [h2, ih]

theorem blockInstrs_emit_self (s : FunctionContext) (b : BasicBlockRef) (i : Instr)
    (h : (s.blocks.find? (fun blk => blk.bid = b)).isSome) :
    (s.emit b i).blockInstrs b = s.blockInstrs b ++ [i] := by
  rcases Option.isSome_iff_exists.mp h with ⟨blk, hblk⟩
  unfold FunctionContext.blockInstrs
  rw [emit_blocks,
    find?_updateBlocks b (fun blk => { blk with instrs := blk.instrs ++ [i] })
      (fun x => rfl) s.blocks, hblk]
  rfl

theorem blockFunclet_emit (s : FunctionContext) (b b' : BasicBlockRef) (i : Instr) :
    (s.emit b i).blockFunclet b' = s.blockFunclet b' := by
  unfold FunctionContext.blockFunclet
  rw [emit_blocks]
  by_cases hb : b' = b
  · subst hb
    rw [find?_updateBlocks b' (fun blk => { blk with instrs := blk.instrs ++ [i] })
      (fun x => rfl) s.blocks]
    cases s.blocks.find? (fun blk => blk.bid = b') <;> rfl
  · rw [find?_updateBlocks_other b b' (fun blk => { blk with instrs := blk.instrs ++ [i] })
      (fun x => rfl) hb s.blocks]

theorem find?_isSome_emit (s : FunctionContext) (b : BasicBlockRef) (i : Instr)
    (h : (s.blocks.find? (fun blk => blk.bid = b)).isSome) :
    ((s.emit b i).blocks.find? (fun blk => blk.bid = b)).isSome := by
  rcases Option.isSome_iff_exists.mp h with ⟨blk, hblk⟩
  rw [emit_blocks,
    find?_updateBlocks b (fun blk => { blk with instrs := blk.instrs ++ [i] })
      (fun x => rfl) s.blocks, hblk]
  rfl

/-! ### Lemmas about running a list of cleanups (`transDrops`) -/

@[simp] theorem transDrops_scopes (b : BasicBlockRef) (L : List DropValue)
    (s : FunctionContext) : (transDrops b L s).scopes = s.scopes := by
  induction L generalizing s with
  | nil => rfl
  | cons c cs ih => simp [transDrops, DropValue.trans, ih]

@[simp] theorem transDrops_lpa (b : BasicBlockRef) (L : List DropValue)
    (s : FunctionContext) :
    (transDrops b L s).landingpad_alloca = s.landingpad_alloca := by
  induction L generalizing s with
  | nil => rfl
  | cons c cs ih => simp [transDrops, DropValue.trans, ih]

@[simp] theorem transDrops_next_block (b : BasicBlockRef) (L : List DropValue)
    (s : FunctionContext) : (transDrops b L s).next_block = s.next_block := by
  induction L generalizing s with
  | nil => rfl
  | cons c cs ih => simp [transDrops, DropValue.trans, ih]

@[simp] theorem transDrops_next_value (b : BasicBlockRef) (L : List DropValue)
    (s : FunctionContext) : (transDrops b L s).next_value = s.next_value := by
  induction L generalizing s with
  | nil => rfl
  | cons c cs ih => simp [transDrops, DropValue.trans, ih]

@[simp] theorem transDrops_msvc (b : BasicBlockRef) (L : List DropValue)
    (s : FunctionContext) : (transDrops b L s).wants_msvc_seh = s.wants_msvc_seh := by
  induction L generalizing s with
  | nil => rfl
  | cons c cs ih => simp [transDrops, DropValue.trans, ih]

@[simp] theorem transDrops_cur (b : BasicBlockRef) (L : List DropValue)
    (s : FunctionContext) :
    (transDrops b L s).custom_unwind_resume = s.custom_unwind_resume := by
  induction L generalizing s with
  | nil => rfl
  | cons c cs ih => simp [transDrops, DropValue.trans, ih]

/-- Running a list of cleanups at an existing block appends exactly the
corresponding drop-glue instructions, in list order, all tagged with the
block's (unchanging) funclet. -/
theorem transDrops_blockInstrs (b : BasicBlockRef) (L : List DropValue)
    (s : FunctionContext) (h : (s.blocks.find? (fun blk => blk.bid = b)).isSome) :
    (transDrops b L s).blockInstrs b =
      s.blockInstrs b ++
        L.map (fun c => Instr.drop_glue c.val c.ty c.skip_dtor (s.blockFunclet b)) := by
  induction L generalizing s with
  | nil => simp [transDrops]
  | cons c cs ih =>
    have h2 := find?_isSome_emit s b (.drop_glue c.val c.ty c.skip_dtor (s.blockFunclet b)) h
    calc (transDrops b (c :: cs) s).blockInstrs b
        = (transDrops b cs
            (s.emit b (.drop_glue c.val c.ty c.skip_dtor (s.blockFunclet b)))).blockInstrs b := by
          rfl
      _ = (s.emit b (.drop_glue c.val c.ty c.skip_dtor (s.blockFunclet b))).blockInstrs b ++
            cs.map (fun c' => Instr.drop_glue c'.val c'.ty c'.skip_dtor
              ((s.emit b (.drop_glue c.val c.ty c.skip_dtor (s.blockFunclet b))).blockFunclet b)) := by
          exact ih _ h2
      _ = s.blockInstrs b ++
            (c :: cs).map (fun c' => Instr.drop_glue c'.val c'.ty c'.skip_dtor (s.blockFunclet b)) := by
          rw [blockInstrs_emit_self s b _ h, blockFunclet_emit]
          simp

theorem blockFunclet_head (s : FunctionContext) (b : BasicBlockRef)
    (blk : BlockData) (rest : List BlockData) (hs : s.blocks = blk :: rest)
    (hb : blk.bid = b) : s.blockFunclet b = blk.funclet := by
  unfold FunctionContext.blockFunclet
  rw [hs, List.find?_cons_of_pos]
  simp [hb]

/-- Precise form of `transDrops` when the target block is the head of the
block store: the drops are appended there and nothing else changes. -/
theorem transDrops_head (b : BasicBlockRef) (L : List DropValue)
    (s : FunctionContext) (blk : BlockData) (rest : List BlockData)
    (hs : s.blocks = blk :: rest) (hb : blk.bid = b) :
    transDrops b L s = { s with blocks := withDrops blk L :: rest } := by
  induction L generalizing s blk with
  | nil =>
    show s = _
    cases s
    simp at hs
    simp [hs, withDrops]
  | cons c cs ih =>
    show transDrops b cs (s.emit b (.drop_glue c.val c.ty c.skip_dtor (s.blockFunclet b))) = _
    have hf : s.blockFunclet b = blk.funclet := blockFunclet_head s b blk rest hs hb
    have hblocks : (s.emit b (.drop_glue c.val c.ty c.skip_dtor (s.blockFunclet b))).blocks =
        ({ blk with instrs := blk.instrs ++
            [Instr.drop_glue c.val c.ty c.skip_dtor blk.funclet] } : BlockData) :: rest := by
      rw [emit_blocks, hs, updateBlocks_cons_self _ _ _ _ hb, hf]
    rw [ih _ _ hblocks hb]
    cases s
    simp at hs
    simp [FunctionContext.emit, hs, withDrops]

/-! ### Lemmas about `UnwindKind.start` and `UnwindKind.branch` -/

@[simp] theorem start_scopes (l : UnwindKind) (b : BasicBlockRef) (s : FunctionContext) :
    (l.start b s).2.scopes = s.scopes := by cases l <;> simp [UnwindKind.start]

@[simp] theorem start_lpa (l : UnwindKind) (b : BasicBlockRef) (s : FunctionContext) :
    (l.start b s).2.landingpad_alloca = s.landingpad_alloca := by
  cases l <;> simp [UnwindKind.start]

@[simp] theorem start_next_block (l : UnwindKind) (b : BasicBlockRef) (s : FunctionContext) :
    (l.start b s).2.next_block = s.next_block := by cases l <;> simp [UnwindKind.start]

@[simp] theorem start_msvc (l : UnwindKind) (b : BasicBlockRef) (s : FunctionContext) :
    (l.start b s).2.wants_msvc_seh = s.wants_msvc_seh := by
  cases l <;> simp [UnwindKind.start]

@[simp] theorem start_cur (l : UnwindKind) (b : BasicBlockRef) (s : FunctionContext) :
    (l.start b s).2.custom_unwind_resume = s.custom_unwind_resume := by
  cases l <;> simp [UnwindKind.start]

/-- The label returned by the start protocol is tag-equal to the label it
was called with. -/
theorem start_label_eq (l : UnwindKind) (b : BasicBlockRef) (s : FunctionContext) :
    UnwindKind.eq (l.start b s).1 l = true := by
  cases l <;> rfl

@[simp] theorem branch_scopes (l : UnwindKind) (s : FunctionContext)
    (b t : BasicBlockRef) : (l.branch s b t).scopes = s.scopes := by
  cases l <;> simp [UnwindKind.branch]

@[simp] theorem branch_lpa (l : UnwindKind) (s : FunctionContext)
    (b t : BasicBlockRef) : (l.branch s b t).landingpad_alloca = s.landingpad_alloca := by
  cases l <;> simp [UnwindKind.branch]

@[simp] theorem branch_next_block (l : UnwindKind) (s : FunctionContext)
    (b t : BasicBlockRef) : (l.branch s b t).next_block = s.next_block := by
  cases l <;> simp [UnwindKind.branch]

@[simp] theorem branch_msvc (l : UnwindKind) (s : FunctionContext)
    (b t : BasicBlockRef) : (l.branch s b t).wants_msvc_seh = s.wants_msvc_seh := by
  cases l <;> simp [UnwindKind.branch]

@[simp] theorem branch_cur (l : UnwindKind) (s : FunctionContext)
    (b t : BasicBlockRef) : (l.branch s b t).custom_unwind_resume = s.custom_unwind_resume := by
  cases l <;> simp [UnwindKind.branch]

/-- The start protocol on a head block appends drop-free instructions to it
and sets its funclet; nothing else in the block store changes. -/
theorem start_head (l : UnwindKind) (b : BasicBlockRef) (s : FunctionContext)
    (blk : BlockData) (rest : List BlockData) (hs : s.blocks = blk :: rest)
    (hb : blk.bid = b) :
    ∃ (pre : List Instr) (fc : Funclet),
      (l.start b s).2.blocks =
        ({ blk with instrs := blk.instrs ++ pre, funclet := some fc } : BlockData) :: rest ∧
      dropsOf pre = [] := by
  cases l with
  | LandingPad =>
    refine ⟨[], .gnu, ?_, rfl⟩
    simp [UnwindKind.start, hs, updateBlocks_cons_self _ _ _ _ hb]
  | CleanupPad p =>
    refine ⟨[.cleanup_pad s.next_value], .msvc s.next_value, ?_, rfl⟩
    simp only [UnwindKind.start, set_funclet_blocks, emit_blocks, fresh_blocks, fresh_fst, hs]
    simp [updateBlocks, hb]

/-- The branch protocol on a head block appends a single drop-free
instruction to it. -/
theorem branch_head (l : UnwindKind) (s : FunctionContext) (b t : BasicBlockRef)
    (blk : BlockData) (rest : List BlockData) (hs : s.blocks = blk :: rest)
    (hb : blk.bid = b) :
    ∃ bi : Instr,
      (l.branch s b t).blocks =
        ({ blk with instrs := blk.instrs ++ [bi] } : BlockData) :: rest ∧
      dropSig bi = none := by
  cases l with
  | LandingPad =>
    refine ⟨.br t, ?_, rfl⟩
    simp only [UnwindKind.branch, emit_blocks, hs]
    rw [updateBlocks_cons_self _ _ _ _ hb]
  | CleanupPad p =>
    refine ⟨.cleanup_ret p (some t), ?_, rfl⟩
    simp only [UnwindKind.branch, emit_blocks, hs]
    rw [updateBlocks_cons_self _ _ _ _ hb]

/-! ### Lemmas about drop signatures -/

@[simp] theorem dropsOf_nil : dropsOf [] = [] := rfl

@[simp] theorem dropsOf_append (l1 l2 : List Instr) :
    dropsOf (l1 ++ l2) = dropsOf l1 ++ dropsOf l2 := by
  simp [dropsOf]

@[simp] theorem withDrops_instrs (blk : BlockData) (L : List DropValue) :
    (withDrops blk L).instrs =
      blk.instrs ++ L.map (fun c => Instr.drop_glue c.val c.ty c.skip_dtor blk.funclet) := rfl

theorem dropsOf_cons_none (i : Instr) (h : dropSig i = none) : dropsOf [i] = [] := by
  simp [dropsOf, h]

theorem dropsOf_map_drop (L : List DropValue) (f : Option Funclet) :
    dropsOf (L.map (fun c => Instr.drop_glue c.val c.ty c.skip_dtor f)) =
      L.map DropValue.sig := by
  induction L with
  | nil => rfl
  | cons c cs ih => simp [dropsOf, dropSig, DropValue.sig] at ih ⊢; exact ih

/-! ### The terminal resume block -/

/-- What `genResume` does when it succeeds: it returns the next free block
handle, allocates exactly that one block (which contains no drop-glue), and
leaves the scope stack, the scratch local and the target flags unchanged. -/
theorem genResume_spec {label : UnwindKind} {s : FunctionContext}
    {b : BasicBlockRef} {s' : FunctionContext}
    (h : genResume label s = some (b, s')) :
    b = s.next_block ∧ s'.scopes = s.scopes ∧ s'.next_block = s.next_block + 1 ∧
    s'.landingpad_alloca = s.landingpad_alloca ∧
    s'.wants_msvc_seh = s.wants_msvc_seh ∧
    s'.custom_unwind_resume = s.custom_unwind_resume ∧
    ∃ nb : BlockData, s'.blocks = nb :: s.blocks ∧ dropsOf nb.instrs = [] := by
  cases label with
  | CleanupPad p =>
    simp only [genResume, Option.some.injEq, Prod.mk.injEq] at h
    obtain ⟨hb, hs'⟩ := h
    subst hb; subst hs'
    refine ⟨rfl, by simp, by simp, by simp, by simp, by simp, ?_⟩
    refine ⟨⟨s.next_block, [.cleanup_pad s.next_value, .cleanup_ret s.next_value none], none⟩,
      ?_, rfl⟩
    simp [FunctionContext.build_new_block, FunctionContext.fresh, updateBlocks]
  | LandingPad =>
    cases hl : s.landingpad_alloca with
    | none =>
      exfalso
      simp [genResume, hl] at h
    | some addr =>
      by_cases hcur : s.custom_unwind_resume
      · simp only [genResume, build_lpa, hl, emit_cur, fresh_cur, build_cur, hcur, if_true,
          Option.some.injEq, Prod.mk.injEq] at h
        obtain ⟨hb, hs'⟩ := h
        subst hb; subst hs'
        refine ⟨rfl, by simp, by simp, by simp [hl], by simp, by simp, ?_⟩
        refine ⟨⟨s.next_block,
          [.load s.next_value addr, .lifetime_end addr,
           .extract_value (s.next_value + 1) s.next_value 0,
           .call_unwind_resume (s.next_value + 1) none], none⟩, ?_, rfl⟩
        simp [FunctionContext.build_new_block, FunctionContext.fresh, FunctionContext.emit,
          updateBlocks, FunctionContext.blockFunclet, List.find?]
      · simp only [genResume, build_lpa, hl, emit_cur, fresh_cur, build_cur, hcur, if_false,
          Bool.false_eq_true, Option.some.injEq, Prod.mk.injEq] at h
        obtain ⟨hb, hs'⟩ := h
        subst hb; subst hs'
        refine ⟨rfl, by simp, by simp, by simp [hl], by simp, by simp, ?_⟩
        refine ⟨⟨s.next_block,
          [.load s.next_value addr, .lifetime_end addr, .resume s.next_value], none⟩, ?_, rfl⟩
        simp [FunctionContext.build_new_block, FunctionContext.fresh, FunctionContext.emit,
          updateBlocks]

/-! ### Lemmas about the replay loop -/

theorem replay_cons_empty (label : UnwindKind) (scope : CleanupScope)
    (rest : List CleanupScope) (prev : BasicBlockRef) (skip : Nat)
    (s : FunctionContext) (he : scope.cleanups.isEmpty) :
    replay label (scope :: rest) prev skip s =
      replay label rest prev skip (s.push_scope scope) := by
  simp [replay, he]

theorem replay_cons_gen (label : UnwindKind) (scope : CleanupScope)
    (rest : List CleanupScope) (prev : BasicBlockRef) (skip : Nat)
    (s : FunctionContext) (he : ¬ scope.cleanups.isEmpty) :
    replay label (scope :: rest) prev skip s =
      replay label rest s.build_new_block.1 0
        (((label.start s.build_new_block.1 s.build_new_block.2).1.branch
            (transDrops s.build_new_block.1
              (scope.cleanups.reverse.take (scope.cleanups.length - skip))
              (label.start s.build_new_block.1 s.build_new_block.2).2)
            s.build_new_block.1 prev).push_scope
          (scope.add_cached_early_exit
            (label.start s.build_new_block.1 s.build_new_block.2).1
            s.build_new_block.1 scope.cleanups.length)) := by
  simp [replay, he]

theorem replay_scopes_rel (label : UnwindKind) (L : List CleanupScope)
    (prev : BasicBlockRef) (skip : Nat) (s : FunctionContext) :
    ∃ L', List.Forall₂ (ReplayRel label) L L' ∧
      (replay label L prev skip s).2.scopes = L'.reverse ++ s.scopes := by
  induction L generalizing prev skip s with
  | nil => exact ⟨[], List.Forall₂.nil, rfl⟩
  | cons scope rest ih =>
    by_cases he : scope.cleanups.isEmpty
    · obtain ⟨L', hrel, hsc⟩ := ih prev skip (s.push_scope scope)
      refine ⟨scope :: L',
        List.Forall₂.cons (Or.inl ⟨by simpa using he, rfl⟩) hrel, ?_⟩
      rw [replay_cons_empty _ _ _ _ _ _ he, hsc]
      simp
    · rw [replay_cons_gen _ _ _ _ _ _ he]
      obtain ⟨L', hrel, hsc⟩ := ih _ _ _
      refine ⟨scope.add_cached_early_exit
          (label.start s.build_new_block.1 s.build_new_block.2).1
          s.build_new_block.1 scope.cleanups.length :: L', ?_, ?_⟩
      · refine List.Forall₂.cons (Or.inr ⟨by simpa using he, ?_⟩) hrel
        exact ⟨⟨(label.start s.build_new_block.1 s.build_new_block.2).1,
          s.build_new_block.1, scope.cleanups.length⟩, start_label_eq _ _ _, rfl, rfl⟩
      · rw [hsc]
        simp

theorem replay_next_block (label : UnwindKind) (L : List CleanupScope)
    (prev : BasicBlockRef) (skip : Nat) (s : FunctionContext) :
    (replay label L prev skip s).2.next_block =
      s.next_block + L.countP (fun sc => !sc.cleanups.isEmpty) := by
  induction L generalizing prev skip s with
  | nil => simp [replay]
  | cons scope rest ih =>
    by_cases he : scope.cleanups.isEmpty
    · rw [replay_cons_empty _ _ _ _ _ _ he, ih]
      simp [List.countP_cons, he]
    · rw [replay_cons_gen _ _ _ _ _ _ he, ih]
      simp [List.countP_cons, he]
      omega

theorem replay_lpa (label : UnwindKind) (L : List CleanupScope)
    (prev : BasicBlockRef) (skip : Nat) (s : FunctionContext) :
    (replay label L prev skip s).2.landingpad_alloca = s.landingpad_alloca := by
  induction L generalizing prev skip s with
  | nil => simp [replay]
  | cons scope rest ih =>
    by_cases he : scope.cleanups.isEmpty
    · rw [replay_cons_empty _ _ _ _ _ _ he, ih]; simp
    · rw [replay_cons_gen _ _ _ _ _ _ he, ih]; simp

theorem replay_msvc (label : UnwindKind) (L : List CleanupScope)
    (prev : BasicBlockRef) (skip : Nat) (s : FunctionContext) :
    (replay label L prev skip s).2.wants_msvc_seh = s.wants_msvc_seh := by
  induction L generalizing prev skip s with
  | nil => simp [replay]
  | cons scope rest ih =>
    by_cases he : scope.cleanups.isEmpty
    · rw [replay_cons_empty _ _ _ _ _ _ he, ih]; simp
    · rw [replay_cons_gen _ _ _ _ _ _ he, ih]; simp

theorem replay_cur (label : UnwindKind) (L : List CleanupScope)
    (prev : BasicBlockRef) (skip : Nat) (s : FunctionContext) :
    (replay label L prev skip s).2.custom_unwind_resume = s.custom_unwind_resume := by
  induction L generalizing prev skip s with
  | nil => simp [replay]
  | cons scope rest ih =>
    by_cases he : scope.cleanups.isEmpty
    · rw [replay_cons_empty _ _ _ _ _ _ he, ih]; simp
    · rw [replay_cons_gen _ _ _ _ _ _ he, ih]; simp

/-- Every block the replay loop creates carries, as its drop-glue content,
a suffix of one replayed scope's cleanups run in reverse scheduling order;
all previously existing blocks are left in place. -/
theorem replay_blocks (label : UnwindKind) (L : List CleanupScope)
    (prev : BasicBlockRef) (skip : Nat) (s : FunctionContext) :
    ∃ nbs : List BlockData,
      (replay label L prev skip s).2.blocks = nbs ++ s.blocks ∧
      nbs.length = L.countP (fun sc => !sc.cleanups.isEmpty) ∧
      ∀ blk ∈ nbs, ∃ sc ∈ L, ∃ k, k ≤ sc.cleanups.length ∧
        dropsOf blk.instrs = (sc.cleanups.reverse.take k).map DropValue.sig := by
  induction L generalizing prev skip s with
  | nil => exact ⟨[], rfl, by simp, by simp⟩
  | cons scope rest ih =>
    by_cases he : scope.cleanups.isEmpty
    · rw [replay_cons_empty _ _ _ _ _ _ he]
      obtain ⟨nbs, hb, hlen, hp⟩ := ih prev skip (s.push_scope scope)
      refine ⟨nbs, by simpa using hb, by simp [List.countP_cons, he, hlen], ?_⟩
      intro blk hblk
      obtain ⟨sc, hsc, hk⟩ := hp blk hblk
      exact ⟨sc, List.mem_cons_of_mem _ hsc, hk⟩
    · rw [replay_cons_gen _ _ _ _ _ _ he]
      have h1 : s.build_new_block.2.blocks =
          (⟨s.next_block, [], none⟩ : BlockData) :: s.blocks := rfl
      obtain ⟨pre, fc, hstart, hpre⟩ :=
        start_head label s.build_new_block.1 s.build_new_block.2
          ⟨s.next_block, [], none⟩ s.blocks h1 rfl
      have h2 := transDrops_head s.build_new_block.1
        (scope.cleanups.reverse.take (scope.cleanups.length - skip))
        (label.start s.build_new_block.1 s.build_new_block.2).2
        ⟨s.next_block, [] ++ pre, some fc⟩ s.blocks hstart rfl
      have h3 : (transDrops s.build_new_block.1
          (scope.cleanups.reverse.take (scope.cleanups.length - skip))
          (label.start s.build_new_block.1 s.build_new_block.2).2).blocks =
          withDrops ⟨s.next_block, [] ++ pre, some fc⟩
            (scope.cleanups.reverse.take (scope.cleanups.length - skip)) :: s.blocks := by
        rw [h2]
      obtain ⟨bi, hbranch, hbi⟩ :=
        branch_head (label.start s.build_new_block.1 s.build_new_block.2).1
          (transDrops s.build_new_block.1
            (scope.cleanups.reverse.take (scope.cleanups.length - skip))
            (label.start s.build_new_block.1 s.build_new_block.2).2)
          s.build_new_block.1 prev
          (withDrops ⟨s.next_block, [] ++ pre, some fc⟩
            (scope.cleanups.reverse.take (scope.cleanups.length - skip)))
          s.blocks h3 rfl
      obtain ⟨nbs, hb, hlen, hp⟩ := ih _ _ _
      refine ⟨nbs ++ [{ withDrops ⟨s.next_block, [] ++ pre, some fc⟩
          (scope.cleanups.reverse.take (scope.cleanups.length - skip)) with
          instrs := (withDrops ⟨s.next_block, [] ++ pre, some fc⟩
            (scope.cleanups.reverse.take (scope.cleanups.length - skip))).instrs ++ [bi] }],
        ?_, ?_, ?_⟩
      · rw [hb]
        simp only [push_scope_blocks]
        rw [hbranch]
        simp
      · simp [List.countP_cons, he, hlen]
      · intro blk hblk
        rcases List.mem_append.mp hblk with hmem | hmem
        · obtain ⟨sc, hsc, hk⟩ := hp blk hmem
          exact ⟨sc, List.mem_cons_of_mem _ hsc, hk⟩
        · have hblk2 := List.mem_singleton.mp hmem
          subst hblk2
          refine ⟨scope, List.mem_cons_self _ _,
            scope.cleanups.length - skip, Nat.sub_le _ _, ?_⟩
          show dropsOf ((withDrops ⟨s.next_block, [] ++ pre, some fc⟩
            (scope.cleanups.reverse.take (scope.cleanups.length - skip))).instrs ++ [bi]) = _
          rw [dropsOf_append, withDrops_instrs, dropsOf_append, dropsOf_append,
            dropsOf_map_drop, hpre, dropsOf_cons_none bi hbi]
          simp

/-! ### Lemmas about cached-early-exit lookup -/

theorem cached_early_exit_mem {sc : CleanupScope} {label : UnwindKind}
    {e : BasicBlockRef} {n : Nat}
    (h : sc.cached_early_exit label = some (e, n)) :
    ∃ ce ∈ sc.cached_early_exits, UnwindKind.eq ce.label label = true ∧
      ce.cleanup_block = e ∧ ce.last_cleanup = n := by
  unfold CleanupScope.cached_early_exit at h
  cases hf : sc.cached_early_exits.reverse.find? (fun x => UnwindKind.eq x.label label) with
  | none => rw [hf] at h; simp at h
  | some ce =>
    rw [hf] at h
    have hmem : ce ∈ sc.cached_early_exits.reverse := List.mem_of_find?_eq_some hf
    have hpred : UnwindKind.eq ce.label label = true := by
      simpa using List.find?_some hf
    simp only [Option.map_some', Option.some.injEq, Prod.mk.injEq] at h
    exact ⟨ce, List.mem_reverse.mp hmem, hpred, h.1, h.2⟩

theorem cached_early_exit_append {a : CleanupScope} {e : CachedEarlyExit}
    {label : UnwindKind} (h : UnwindKind.eq e.label label = true) :
    ({ a with cached_early_exits := a.cached_early_exits ++ [e] } :
        CleanupScope).cached_early_exit label =
      some (e.cleanup_block, e.last_cleanup) := by
  unfold CleanupScope.cached_early_exit
  simp [List.find?_cons_of_pos, h]

/-- Lookup ignores the payload of a `CleanupPad` label (tag-only keys). -/
theorem cached_early_exit_pad_congr (sc : CleanupScope) (p q : ValueRef) :
    sc.cached_early_exit (.CleanupPad p) = sc.cached_early_exit (.CleanupPad q) := by
  unfold CleanupScope.cached_early_exit
  have hfun : (fun x : CachedEarlyExit => UnwindKind.eq x.label (.CleanupPad p)) =
      (fun x : CachedEarlyExit => UnwindKind.eq x.label (.CleanupPad q)) := by
    funext x
    cases x.label <;> rfl
  rw [hfun]

/-! ### Lemmas about the pop phase of the exit-chain builder -/

theorem puc_decomp (label : UnwindKind) (l : List CleanupScope) :
    (popUntilCached label l).1 ++ (popUntilCached label l).2.1 = l := by
  induction l with
  | nil => rfl
  | cons sc rest ih =>
    cases hce : sc.cached_early_exit label with
    | some hit => simp [popUntilCached, hce]
    | none =>
      simp only [popUntilCached, hce, List.cons_append, List.cons.injEq, true_and]
      exact ih

theorem puc_hit {label : UnwindKind} {l : List CleanupScope}
    {e : BasicBlockRef} {n : Nat}
    (h : (popUntilCached label l).2.2 = some (e, n)) :
    ∃ sc, (popUntilCached label l).1.getLast? = some sc ∧
      sc.cached_early_exit label = some (e, n) := by
  induction l with
  | nil => simp [popUntilCached] at h
  | cons sc rest ih =>
    cases hce : sc.cached_early_exit label with
    | some hit =>
      simp only [popUntilCached, hce] at h ⊢
      exact ⟨sc, rfl, by rw [hce, h]⟩
    | none =>
      simp only [popUntilCached, hce] at h ⊢
      obtain ⟨sc', hlast, hce'⟩ := ih h
      refine ⟨sc', ?_, hce'⟩
      show (sc :: (popUntilCached label rest).1).getLast? = some sc'
      cases hr : (popUntilCached label rest).1 with
      | nil => simp [hr] at hlast
      | cons x xs =>
        rw [List.getLast?_cons_cons]
        rw [hr] at hlast
        exact hlast

theorem puc_none {label : UnwindKind} {l : List CleanupScope}
    (h : (popUntilCached label l).2.2 = none) :
    (popUntilCached label l).1 = l ∧ (popUntilCached label l).2.1 = [] ∧
    ∀ sc ∈ l, sc.cached_early_exit label = none := by
  induction l with
  | nil => exact ⟨rfl, rfl, by simp⟩
  | cons sc rest ih =>
    cases hce : sc.cached_early_exit label with
    | some hit => simp [popUntilCached, hce] at h
    | none =>
      simp only [popUntilCached, hce] at h ⊢
      obtain ⟨h1, h2, h3⟩ := ih h
      refine ⟨by rw [h1], h2, ?_⟩
      intro x hx
      rcases List.mem_cons.mp hx with hx | hx
      · rw [hx]; exact hce
      · exact h3 x hx

/-! ### Lemmas about the pop phase of the landing-pad resolver -/

theorem pni_decomp {l p r : List CleanupScope} (h : popNoInvoke l = some (p, r)) :
    p ++ r = l ∧ (∀ sc ∈ p, sc.needs_invoke = false) ∧
    ∃ top rest, r = top :: rest ∧ top.needs_invoke = true := by
  induction l generalizing p with
  | nil => simp [popNoInvoke] at h
  | cons sc tail ih =>
    by_cases hi : sc.needs_invoke
    · simp only [popNoInvoke, hi, if_true, Option.some.injEq, Prod.mk.injEq] at h
      obtain ⟨hp, hr⟩ := h
      subst hp; subst hr
      refine ⟨rfl, ?_, sc, tail, rfl, hi⟩
      intro x hx
      simp at hx
    · simp only [popNoInvoke, hi, if_false, Bool.false_eq_true, Option.map_eq_some'] at h
      obtain ⟨⟨p', r'⟩, hrec, heq⟩ := h
      simp only [Prod.mk.injEq] at heq
      obtain ⟨hp, hr⟩ := heq
      subst hp; subst hr
      obtain ⟨h1, h2, top, rest, h3, h4⟩ := ih hrec
      refine ⟨by rw [List.cons_append, h1], ?_, top, rest, h3, h4⟩
      intro x hx
      rcases List.mem_cons.mp hx with hx | hx
      · rw [hx]; simpa using hi
      · exact h2 x hx

theorem pni_build {p : List CleanupScope} (hp : ∀ sc ∈ p, sc.needs_invoke = false)
    {top : CleanupScope} (ht : top.needs_invoke = true) (rest : List CleanupScope) :
    popNoInvoke (p ++ top :: rest) = some (p, top :: rest) := by
  induction p with
  | nil => simp [popNoInvoke, ht]
  | cons sc ptail ih =>
    have h1 : sc.needs_invoke = false := hp sc (List.mem_cons_self _ _)
    have h2 : ∀ x ∈ ptail, x.needs_invoke = false :=
      fun x hx => hp x (List.mem_cons_of_mem _ hx)
    simp [popNoInvoke, h1, ih h2]

/-! ### Structural lemmas for the exit-chain builder -/

theorem stackRel_of_replayRel {label : UnwindKind} {a b : CleanupScope}
    (h : ReplayRel label a b) : StackRel a b := by
  rcases h with ⟨_, rfl⟩ | ⟨_, e, _, _, rfl⟩
  · exact ⟨rfl, rfl, [], by simp⟩
  · exact ⟨rfl, rfl, [e], rfl⟩

theorem stackRel_refl (a : CleanupScope) : StackRel a a :=
  ⟨rfl, rfl, [], by simp⟩

theorem stackRel_of_tcteRel {label : UnwindKind} {a b : CleanupScope}
    (h : TcteRel label a b) : StackRel a b := by
  rcases h with rfl | h
  · exact stackRel_refl _
  · exact stackRel_of_replayRel h

/-- `TcteRel` preserves the per-scope structural invariant. -/
theorem scopeInv_of_tcteRel {label : UnwindKind} {a b : CleanupScope}
    (h : TcteRel label a b) (ha : ScopeInv a) : ScopeInv b := by
  rcases h with rfl | (⟨_, rfl⟩ | ⟨hne, e, _, hlen, rfl⟩)
  · exact ha
  · exact ha
  · constructor
    · intro ce hce
      rcases List.mem_append.mp hce with hm | hm
      · exact ha.1 ce hm
      · rw [List.mem_singleton.mp hm, hlen]
    · intro _
      exact hne

theorem forall2_map_eq {α β γ : Type} {R : α → β → Prop} {f : α → γ} {g : β → γ}
    {l1 : List α} {l2 : List β} (h : List.Forall₂ R l1 l2)
    (hfg : ∀ a b, R a b → f a = g b) : l1.map f = l2.map g := by
  induction h with
  | nil => rfl
  | cons hr _ ih => simp [hfg _ _ hr, ih]

/-- Case analysis on a successful run of `trans_cleanups_to_exit_scope`:
either the pop phase found a cached early exit and the replay started from
it, or the stack was exhausted and the replay started from a fresh resume
block. -/
theorem tcte_eq_cases {label : UnwindKind} {s : FunctionContext}
    {b : BasicBlockRef} {s' : FunctionContext}
    (h : trans_cleanups_to_exit_scope label s = some (b, s')) :
    (∃ popped remaining e n,
      popUntilCached label s.scopes = (popped, remaining, some (e, n)) ∧
      replay label popped.reverse e n { s with scopes := remaining } = (b, s')) ∨
    (∃ popped remaining rb rs,
      popUntilCached label s.scopes = (popped, remaining, none) ∧
      genResume label { s with scopes := remaining } = some (rb, rs) ∧
      replay label popped.reverse rb 0 rs = (b, s')) := by
  rcases h3 : popUntilCached label s.scopes with ⟨popped, remaining, hitopt⟩
  unfold trans_cleanups_to_exit_scope at h
  rw [h3] at h
  cases hitopt with
  | some hit =>
    obtain ⟨e, n⟩ := hit
    have h' : some (replay label popped.reverse e n
        { s with scopes := remaining }) = some (b, s') := h
    simp only [Option.some.injEq] at h'
    exact Or.inl ⟨popped, remaining, e, n, rfl, h'⟩
  | none =>
    have h' : (match genResume label { s with scopes := remaining } with
        | none => none
        | some pr => some (replay label popped.reverse pr.1 0 pr.2)) = some (b, s') := h
    cases hg : genResume label { s with scopes := remaining } with
    | none => rw [hg] at h'; simp at h'
    | some pr =>
      rw [hg] at h'
      have h'' : some (replay label popped.reverse pr.1 0 pr.2) = some (b, s') := h'
      simp only [Option.some.injEq] at h''
      exact Or.inr ⟨popped, remaining, pr.1, pr.2, rfl, by rw [hg], h''⟩

/-- The exit-chain builder restores the stack: same length, and each scope
keeps its cleanups and cached landing pad, with cached early exits only
appended to. -/
theorem puc_decomp_eq {label : UnwindKind} {l popped remaining : List CleanupScope}
    {hitopt : Option (BasicBlockRef × Nat)}
    (h : popUntilCached label l = (popped, remaining, hitopt)) :
    popped ++ remaining = l := by
  have := puc_decomp label l
  rw [h] at this
  exact this

theorem tcte_scopes_rel {label : UnwindKind} {s : FunctionContext}
    {b : BasicBlockRef} {s' : FunctionContext}
    (h : trans_cleanups_to_exit_scope label s = some (b, s')) :
    List.Forall₂ (TcteRel label) s.scopes s'.scopes := by
  rcases tcte_eq_cases h with ⟨popped, remaining, e, n, hc, hrep⟩ |
    ⟨popped, remaining, rb, rs, hc, hg, hrep⟩
  · obtain ⟨L', hrel, hsc⟩ := replay_scopes_rel label
      popped.reverse e n { s with scopes := remaining }
    have h2 : (replay label popped.reverse e n { s with scopes := remaining }).2 = s' :=
      congrArg Prod.snd hrep
    have hs' : s'.scopes = L'.reverse ++ remaining := by
      rw [← h2, hsc]
    have hrev : List.Forall₂ (ReplayRel label) popped L'.reverse := by
      have := List.rel_reverse hrel
      rwa [List.reverse_reverse] at this
    have hfor : List.Forall₂ (TcteRel label) (popped ++ remaining) (L'.reverse ++ remaining) :=
      List.rel_append (hrev.imp (fun a b => Or.inr))
        (List.forall₂_same.mpr (fun x _ => Or.inl rfl))
    rw [puc_decomp_eq hc] at hfor
    rw [hs']
    exact hfor
  · obtain ⟨L', hrel, hsc⟩ := replay_scopes_rel label popped.reverse rb 0 rs
    have h2 : (replay label popped.reverse rb 0 rs).2 = s' :=
      congrArg Prod.snd hrep
    have hrs : rs.scopes = remaining := (genResume_spec hg).2.1
    have hs' : s'.scopes = L'.reverse ++ remaining := by
      rw [← h2, hsc, hrs]
    have hrev : List.Forall₂ (ReplayRel label) popped L'.reverse := by
      have := List.rel_reverse hrel
      rwa [List.reverse_reverse] at this
    have hfor : List.Forall₂ (TcteRel label) (popped ++ remaining) (L'.reverse ++ remaining) :=
      List.rel_append (hrev.imp (fun a b => Or.inr))
        (List.forall₂_same.mpr (fun x _ => Or.inl rfl))
    rw [puc_decomp_eq hc] at hfor
    rw [hs']
    exact hfor

theorem tcte_stack_rel {label : UnwindKind} {s : FunctionContext}
    {b : BasicBlockRef} {s' : FunctionContext}
    (h : trans_cleanups_to_exit_scope label s = some (b, s')) :
    List.Forall₂ StackRel s.scopes s'.scopes :=
  (tcte_scopes_rel h).imp (fun _ _ => stackRel_of_tcteRel)

theorem tcte_lpa {label : UnwindKind} {s : FunctionContext}
    {b : BasicBlockRef} {s' : FunctionContext}
    (h : trans_cleanups_to_exit_scope label s = some (b, s')) :
    s'.landingpad_alloca = s.landingpad_alloca := by
  rcases tcte_eq_cases h with ⟨popped, remaining, e, n, hc, hrep⟩ |
    ⟨popped, remaining, rb, rs, hc, hg, hrep⟩
  · have h2 : (replay label popped.reverse e n { s with scopes := remaining }).2 = s' :=
      congrArg Prod.snd hrep
    rw [← h2, replay_lpa]
  · have h2 : (replay label popped.reverse rb 0 rs).2 = s' :=
      congrArg Prod.snd hrep
    rw [← h2, replay_lpa, (genResume_spec hg).2.2.2.1]

/-- Block allocation count of the exit-chain builder: one fresh resume
block if no cached exit was found, plus one block per popped scope with
pending cleanups. -/
theorem tcte_next_block {label : UnwindKind} {s : FunctionContext}
    {b : BasicBlockRef} {s' : FunctionContext} {popped remaining : List CleanupScope}
    {hitopt : Option (BasicBlockRef × Nat)}
    (h : trans_cleanups_to_exit_scope label s = some (b, s'))
    (hc : popUntilCached label s.scopes = (popped, remaining, hitopt)) :
    s'.next_block = s.next_block + (if hitopt.isSome then 0 else 1) +
      popped.countP (fun sc => !sc.cleanups.isEmpty) := by
  rcases tcte_eq_cases h with ⟨popped', remaining', e, n, hc', hrep⟩ |
    ⟨popped', remaining', rb, rs, hc', hg, hrep⟩
  · rw [hc] at hc'
    obtain ⟨hp, hr, hh⟩ : popped = popped' ∧ remaining = remaining' ∧
        hitopt = some (e, n) := by
      have h1 := congrArg (fun x => x.1) hc'
      have h2 := congrArg (fun x => x.2.1) hc'
      have h3 := congrArg (fun x => x.2.2) hc'
      exact ⟨h1, h2, h3⟩
    subst hp; subst hr; subst hh
    have h2 : (replay label popped.reverse e n { s with scopes := remaining }).2 = s' :=
      congrArg Prod.snd hrep
    rw [← h2, replay_next_block]
    simp [List.countP_reverse]
  · rw [hc] at hc'
    obtain ⟨hp, hr, hh⟩ : popped = popped' ∧ remaining = remaining' ∧
        hitopt = none := by
      have h1 := congrArg (fun x => x.1) hc'
      have h2 := congrArg (fun x => x.2.1) hc'
      have h3 := congrArg (fun x => x.2.2) hc'
      exact ⟨h1, h2, h3⟩
    subst hp; subst hr; subst hh
    have h2 : (replay label popped.reverse rb 0 rs).2 = s' :=
      congrArg Prod.snd hrep
    rw [← h2, replay_next_block, (genResume_spec hg).2.2.1]
    simp [List.countP_reverse]

/-- Every block added by the exit-chain builder either contains no
drop-glue at all (the terminal resume block) or runs, in reverse scheduling
order, a suffix of the cleanups of one of the scopes on the stack. -/
theorem tcte_blocks {label : UnwindKind} {s : FunctionContext}
    {b : BasicBlockRef} {s' : FunctionContext}
    (h : trans_cleanups_to_exit_scope label s = some (b, s')) :
    ∃ nbs : List BlockData, s'.blocks = nbs ++ s.blocks ∧
      ∀ blk ∈ nbs, dropsOf blk.instrs = [] ∨
        ∃ sc ∈ s.scopes, ∃ k, k ≤ sc.cleanups.length ∧
          dropsOf blk.instrs = (sc.cleanups.reverse.take k).map DropValue.sig := by
  rcases tcte_eq_cases h with ⟨popped, remaining, e, n, hc, hrep⟩ |
    ⟨popped, remaining, rb, rs, hc, hg, hrep⟩
  · have hmem : ∀ sc ∈ popped, sc ∈ s.scopes := by
      intro sc hsc
      rw [← puc_decomp_eq hc]
      exact List.mem_append.mpr (Or.inl hsc)
    have h2 : (replay label popped.reverse e n { s with scopes := remaining }).2 = s' :=
      congrArg Prod.snd hrep
    obtain ⟨nbs, hb, -, hp⟩ := replay_blocks label
      popped.reverse e n { s with scopes := remaining }
    refine ⟨nbs, by rw [← h2, hb], ?_⟩
    intro blk hblk
    obtain ⟨sc, hsc, hk⟩ := hp blk hblk
    exact Or.inr ⟨sc, hmem sc (List.mem_reverse.mp hsc), hk⟩
  · have hmem : ∀ sc ∈ popped, sc ∈ s.scopes := by
      intro sc hsc
      rw [← puc_decomp_eq hc]
      exact List.mem_append.mpr (Or.inl hsc)
    have h2 : (replay label popped.reverse rb 0 rs).2 = s' :=
      congrArg Prod.snd hrep
    obtain ⟨nbs, hb, -, hp⟩ := replay_blocks label popped.reverse rb 0 rs
    obtain ⟨nb, hnb, hnbdrops⟩ := (genResume_spec hg).2.2.2.2.2.2
    refine ⟨nbs ++ [nb], ?_, ?_⟩
    · rw [← h2, hb, hnb]
      simp
    · intro blk hblk
      rcases List.mem_append.mp hblk with hm | hm
      · obtain ⟨sc, hsc, hk⟩ := hp blk hm
        exact Or.inr ⟨sc, hmem sc (List.mem_reverse.mp hsc), hk⟩
      · rw [List.mem_singleton.mp hm]
        exact Or.inl hnbdrops

/-! ### Structural lemmas for the landing-pad resolver -/

theorem blpv_scopes (s2 : FunctionContext) (pad : BasicBlockRef) :
    (build_landing_pad_val s2 pad).2.scopes = s2.scopes := by
  by_cases hm : s2.wants_msvc_seh
  · simp [build_landing_pad_val, hm]
  · cases hl : s2.landingpad_alloca <;> simp [build_landing_pad_val, hm, hl]

theorem blpv_next_block (s2 : FunctionContext) (pad : BasicBlockRef) :
    (build_landing_pad_val s2 pad).2.next_block = s2.next_block := by
  by_cases hm : s2.wants_msvc_seh
  · simp [build_landing_pad_val, hm]
  · cases hl : s2.landingpad_alloca <;> simp [build_landing_pad_val, hm, hl]

theorem glp_miss_spec {s1 : FunctionContext} {top : CleanupScope}
    {rest : List CleanupScope} {b : BasicBlockRef} {pb : FunctionContext}
    (h : glp_miss s1 top rest = some (b, pb)) :
    b = s1.next_block ∧
    ∃ cb : BasicBlockRef × FunctionContext,
      trans_cleanups_to_exit_scope
        (build_landing_pad_val (padState s1 top rest) s1.next_block).1
        (build_landing_pad_val (padState s1 top rest) s1.next_block).2 = some cb ∧
      pb = (build_landing_pad_val (padState s1 top rest) s1.next_block).1.branch
        cb.2 s1.next_block cb.1 := by
  unfold glp_miss at h
  cases hm : trans_cleanups_to_exit_scope
      (build_landing_pad_val (padState s1 top rest) s1.next_block).1
      (build_landing_pad_val (padState s1 top rest) s1.next_block).2 with
  | none => rw [hm] at h; simp at h
  | some cb =>
    rw [hm] at h
    have h' : some (s1.next_block,
        (build_landing_pad_val (padState s1 top rest) s1.next_block).1.branch
          cb.2 s1.next_block cb.1) = some (b, pb) := h
    simp only [Option.some.injEq, Prod.mk.injEq] at h'
    exact ⟨h'.1.symm, cb, rfl, h'.2.symm⟩

theorem glp_eq_cases {s : FunctionContext} {b : BasicBlockRef} {s' : FunctionContext}
    (h : get_landing_pad s = some (b, s')) :
    ∃ popped top rest, popNoInvoke s.scopes = some (popped, top :: rest) ∧
      ((top.cached_landing_pad = some b ∧
        s' = { s with scopes := popped ++ (top :: rest) }) ∨
       (top.cached_landing_pad = none ∧
        ∃ pb, glp_miss { s with scopes := top :: rest } top rest = some (b, pb) ∧
          s' = { pb with scopes := popped ++ pb.scopes })) := by
  unfold get_landing_pad at h
  by_cases hl : s.scopes.length = 0
  · rw [if_pos hl] at h; simp at h
  · rw [if_neg hl] at h
    rcases hp : popNoInvoke s.scopes with _ | ⟨popped, rem⟩
    · rw [hp] at h; simp at h
    · rw [hp] at h
      cases rem with
      | nil =>
        have h' : (none : Option (BasicBlockRef × FunctionContext)) = some (b, s') := h
        simp at h'
      | cons top rest =>
        have h' : (match top.cached_landing_pad with
            | some llbb => some (llbb, { s with scopes := popped ++ (top :: rest) })
            | none =>
              match glp_miss { s with scopes := top :: rest } top rest with
              | none => none
              | some pb =>
                some (pb.1, { pb.2 with scopes := popped ++ pb.2.scopes })) =
            some (b, s') := h
        cases hc : top.cached_landing_pad with
        | some llbb =>
          rw [hc] at h'
          have h'' : some (llbb, { s with scopes := popped ++ (top :: rest) }) =
              some (b, s') := h'
          simp only [Option.some.injEq, Prod.mk.injEq] at h''
          refine ⟨popped, top, rest, rfl, Or.inl ⟨?_, h''.2.symm⟩⟩
          rw [hc, h''.1]
        | none =>
          rw [hc] at h'
          cases hmiss : glp_miss { s with scopes := top :: rest } top rest with
          | none => rw [hmiss] at h'; simp at h'
          | some pb =>
            rw [hmiss] at h'
            have h'' : some (pb.1, { pb.2 with scopes := popped ++ pb.2.scopes }) =
                some (b, s') := h'
            simp only [Option.some.injEq, Prod.mk.injEq] at h''
            refine ⟨popped, top, rest, rfl, Or.inr ⟨hc, pb.2, ?_, h''.2.symm⟩⟩
            rw [hmiss, ← h''.1]

theorem glpRel_of_stackRel {a b : CleanupScope} (h : StackRel a b) : GlpRel a b :=
  ⟨h.1, h.2.2, Or.inl h.2.1⟩

theorem glpRel_refl (a : CleanupScope) : GlpRel a a :=
  ⟨rfl, ⟨[], by simp⟩, Or.inl rfl⟩

/-- The landing-pad resolver restores the stack: same length, cleanups of
every scope untouched, cached early exits only appended, and a cached
landing pad is never cleared (only filled in). -/
theorem glp_scopes_rel {s : FunctionContext} {b : BasicBlockRef}
    {s' : FunctionContext} (h : get_landing_pad s = some (b, s')) :
    List.Forall₂ GlpRel s.scopes s'.scopes := by
  rcases glp_eq_cases h with ⟨popped, top, rest, hp, hcase⟩
  obtain ⟨hsplit, hpninv, _⟩ := pni_decomp hp
  rcases hcase with ⟨hc, rfl⟩ | ⟨hc, pb, hm, rfl⟩
  · show List.Forall₂ GlpRel s.scopes (popped ++ (top :: rest))
    rw [hsplit]
    exact List.forall₂_same.mpr (fun x _ => glpRel_refl x)
  · obtain ⟨hb, cb, htcte, hpb⟩ := glp_miss_spec hm
    have hrel := tcte_stack_rel htcte
    have hin : (build_landing_pad_val
        (padState { s with scopes := top :: rest } top rest)
        ({ s with scopes := top :: rest } : FunctionContext).next_block).2.scopes =
        ({ top with cached_landing_pad := some s.next_block } : CleanupScope) :: rest := by
      rw [blpv_scopes]
      rfl
    rw [hin] at hrel
    obtain ⟨top'', rest'', htop, htail, hu⟩ := List.forall₂_cons_left_iff.mp hrel
    have hpbsc : pb.scopes = top'' :: rest'' := by
      rw [hpb, branch_scopes]
      exact hu
    show List.Forall₂ GlpRel s.scopes (popped ++ pb.scopes)
    rw [hpbsc, ← hsplit]
    refine List.rel_append (List.forall₂_same.mpr (fun x _ => glpRel_refl x))
      (List.Forall₂.cons ?_ (htail.imp (fun a b => glpRel_of_stackRel)))
    exact ⟨htop.1, htop.2.2, Or.inr hc⟩

/-- Resolving the landing pad a second time on the unchanged stack returns
the identical cached block handle and leaves the state untouched; the
handle is the one stored in the owning scope's cache. -/
theorem glp_idem {s : FunctionContext} {p : BasicBlockRef} {s1 : FunctionContext}
    (h : get_landing_pad s = some (p, s1)) :
    get_landing_pad s1 = some (p, s1) ∧
    ∃ sc ∈ s1.scopes, sc.cached_landing_pad = some p := by
  rcases glp_eq_cases h with ⟨popped, top, rest, hp, hcase⟩
  obtain ⟨hsplit, hpninv, -⟩ := pni_decomp hp
  rcases hcase with ⟨hc, rfl⟩ | ⟨hc, pb, hm, rfl⟩
  · have hs1 : ({ s with scopes := popped ++ (top :: rest) } : FunctionContext) = s := by
      cases s
      simp only at hsplit ⊢
      simp [hsplit]
    rw [hs1]
    rw [hs1] at h
    refine ⟨h, top, ?_, hc⟩
    rw [← hsplit]
    exact List.mem_append.mpr (Or.inr (List.mem_cons_self _ _))
  · obtain ⟨hb, cb, htcte, hpb⟩ := glp_miss_spec hm
    have hrel := tcte_stack_rel htcte
    have hin : (build_landing_pad_val
        (padState { s with scopes := top :: rest } top rest)
        ({ s with scopes := top :: rest } : FunctionContext).next_block).2.scopes =
        ({ top with cached_landing_pad := some s.next_block } : CleanupScope) :: rest := by
      rw [blpv_scopes]
      rfl
    rw [hin] at hrel
    obtain ⟨top'', rest'', htop, htail, hu⟩ := List.forall₂_cons_left_iff.mp hrel
    have hpbsc : pb.scopes = top'' :: rest'' := by
      rw [hpb, branch_scopes]
      exact hu
    have hclp : top''.cached_landing_pad = some s.next_block := htop.2.1
    have hni : top''.needs_invoke = true := by
      simp [CleanupScope.needs_invoke, hclp]
    have hpni1 : popNoInvoke ({ pb with scopes := popped ++ pb.scopes } :
        FunctionContext).scopes = some (popped, top'' :: rest'') := by
      show popNoInvoke (popped ++ pb.scopes) = _
      rw [hpbsc]
      exact pni_build hpninv hni rest''
    have hlen : ¬ (({ pb with scopes := popped ++ pb.scopes } :
        FunctionContext).scopes.length = 0) := by
      show ¬ ((popped ++ pb.scopes).length = 0)
      rw [hpbsc]
      simp
    constructor
    · unfold get_landing_pad
      rw [if_neg hlen, hpni1]
      show (match top''.cached_landing_pad with
          | some llbb => some (llbb,
              { ({ pb with scopes := popped ++ pb.scopes } : FunctionContext) with
                scopes := popped ++ (top'' :: rest'') })
          | none =>
            match glp_miss { ({ pb with scopes := popped ++ pb.scopes } :
                FunctionContext) with scopes := top'' :: rest'' } top'' rest'' with
            | none => none
            | some pb2 =>
              some (pb2.1, { pb2.2 with scopes := popped ++ pb2.2.scopes })) =
        some (p, { pb with scopes := popped ++ pb.scopes })
      rw [hclp]
      have hstate : ({ pb with scopes := popped ++ (top'' :: rest'') } :
          FunctionContext) = { pb with scopes := popped ++ pb.scopes } := by
        rw [hpbsc]
      rw [show p = s.next_block from hb]
      rw [hstate]
    · refine ⟨top'', ?_, ?_⟩
      · show top'' ∈ popped ++ pb.scopes
        rw [hpbsc]
        exact List.mem_append.mpr (Or.inr (List.mem_cons_self _ _))
      · rw [hclp, show p = s.next_block from hb]

/-! ### The second exit-chain computation -/

theorem forall2_mem_right {α β : Type} {R : α → β → Prop} {l1 : List α} {l2 : List β}
    (h : List.Forall₂ R l1 l2) {b : β} (hb : b ∈ l2) : ∃ a ∈ l1, R a b := by
  induction h with
  | nil => simp at hb
  | cons hr hrest ih =>
    rcases List.mem_cons.mp hb with rfl | hb'
    · exact ⟨_, List.mem_cons_self _ _, hr⟩
    · obtain ⟨a, ha, har⟩ := ih hb'
      exact ⟨a, List.mem_cons_of_mem _ ha, har⟩

theorem forall2_mem_left {α β : Type} {R : α → β → Prop} {l1 : List α} {l2 : List β}
    (h : List.Forall₂ R l1 l2) {a : α} (ha : a ∈ l1) : ∃ b ∈ l2, R a b := by
  induction h with
  | nil => simp at ha
  | cons hr hrest ih =>
    rcases List.mem_cons.mp ha with rfl | ha'
    · exact ⟨_, List.mem_cons_self _ _, hr⟩
    · obtain ⟨b, hb, hbr⟩ := ih ha'
      exact ⟨b, List.mem_cons_of_mem _ hb, hbr⟩

theorem mem_of_getLast?_eq {α : Type} {l : List α} {a : α}
    (h : l.getLast? = some a) : a ∈ l := by
  rcases List.mem_getLast?_eq_getLast (Option.mem_def.mpr h) with ⟨hne, rfl⟩
  exact List.getLast_mem hne

theorem replayRel_cleanups {label : UnwindKind} {a b : CleanupScope}
    (h : ReplayRel label a b) : b.cleanups = a.cleanups := by
  rcases h with ⟨_, rfl⟩ | ⟨_, e, _, _, rfl⟩ <;> rfl

theorem replayRel_hit {label : UnwindKind} {a b : CleanupScope}
    (h : ReplayRel label a b) (hne : b.cleanups ≠ []) :
    (b.cached_early_exit label).isSome := by
  rcases h with ⟨ha, rfl⟩ | ⟨_, e, heq, _, rfl⟩
  · exact absurd ha hne
  · rw [cached_early_exit_append heq]
    rfl

/-- A scope with no cleanups and no cached exits never produces a cache
hit. -/
theorem cached_early_exit_of_empty {sc : CleanupScope} (h : sc.cached_early_exits = [])
    (label : UnwindKind) : sc.cached_early_exit label = none := by
  simp [CleanupScope.cached_early_exit, h]

/-- The pop phase over a region whose empty-cleanup scopes carry no cached
exits and whose nonempty scopes all have a matching cached exit stops at
the topmost nonempty scope: it reports a hit and the popped scopes contain
exactly one nonempty scope. -/
theorem puc_cons_none {label : UnwindKind} {sc : CleanupScope} {l : List CleanupScope}
    (h : sc.cached_early_exit label = none) :
    popUntilCached label (sc :: l) =
      (sc :: (popUntilCached label l).1,
       (popUntilCached label l).2.1, (popUntilCached label l).2.2) := by
  simp [popUntilCached, h]

theorem puc_cons_some {label : UnwindKind} {sc : CleanupScope} {l : List CleanupScope}
    {hit : BasicBlockRef × Nat} (h : sc.cached_early_exit label = some hit) :
    popUntilCached label (sc :: l) = ([sc], l, some hit) := by
  simp [popUntilCached, h]

theorem walk_hit {label : UnwindKind} (R rest : List CleanupScope)
    (hE : ∀ sc ∈ R, sc.cleanups = [] → sc.cached_early_exits = [])
    (hN : ∀ sc ∈ R, sc.cleanups ≠ [] → (sc.cached_early_exit label).isSome)
    (hex : ∃ sc ∈ R, sc.cleanups ≠ []) :
    (popUntilCached label (R ++ rest)).2.2.isSome ∧
    (popUntilCached label (R ++ rest)).1.countP (fun sc => !sc.cleanups.isEmpty) = 1 := by
  induction R with
  | nil => simp at hex
  | cons sc R' ih =>
    by_cases he : sc.cleanups = []
    · have hce : sc.cached_early_exits = [] := hE sc (List.mem_cons_self _ _) he
      have hcen : sc.cached_early_exit label = none := cached_early_exit_of_empty hce label
      have hE' : ∀ x ∈ R', x.cleanups = [] → x.cached_early_exits = [] :=
        fun x hx => hE x (List.mem_cons_of_mem _ hx)
      have hN' : ∀ x ∈ R', x.cleanups ≠ [] → (x.cached_early_exit label).isSome :=
        fun x hx => hN x (List.mem_cons_of_mem _ hx)
      have hex' : ∃ x ∈ R', x.cleanups ≠ [] := by
        obtain ⟨x, hx, hxne⟩ := hex
        rcases List.mem_cons.mp hx with rfl | hx'
        · exact absurd he hxne
        · exact ⟨x, hx', hxne⟩
      obtain ⟨h1, h2⟩ := ih hE' hN' hex'
      rw [List.cons_append, puc_cons_none hcen]
      constructor
      · exact h1
      · show List.countP _ (sc :: (popUntilCached label (R' ++ rest)).1) = 1
        rw [List.countP_cons]
        simp [he, h2]
    · obtain ⟨hit, hce⟩ := Option.isSome_iff_exists.mp
        (hN sc (List.mem_cons_self _ _) he)
      rw [List.cons_append, puc_cons_some hce]
      constructor
      · rfl
      · simp [List.countP_cons, he]

/-- The pop phase over a region with no matching cached exits pops
everything. -/
theorem walk_none {label : UnwindKind} (R : List CleanupScope)
    (hA : ∀ sc ∈ R, sc.cached_early_exit label = none) :
    popUntilCached label R = (R, [], none) := by
  induction R with
  | nil => rfl
  | cons sc R' ih =>
    have hce := hA sc (List.mem_cons_self _ _)
    have := ih (fun x hx => hA x (List.mem_cons_of_mem _ hx))
    simp [popUntilCached, hce, this]

theorem genResume_total {label : UnwindKind} {s : FunctionContext}
    (h : label = UnwindKind.LandingPad → s.landingpad_alloca.isSome) :
    (genResume label s).isSome := by
  cases label with
  | CleanupPad p => rfl
  | LandingPad =>
    obtain ⟨addr, haddr⟩ := Option.isSome_iff_exists.mp (h rfl)
    by_cases hcur : s.custom_unwind_resume <;>
      simp [genResume, haddr, hcur]

theorem genResume_lp_alloca {s : FunctionContext} {x : BasicBlockRef × FunctionContext}
    (h : genResume UnwindKind.LandingPad s = some x) : s.landingpad_alloca.isSome := by
  cases hl : s.landingpad_alloca with
  | none => simp [genResume, hl] at h
  | some addr => rfl

/-- A second run whose pop phase hits a cache and pops exactly one scope
with pending cleanups allocates exactly one block. -/
theorem run2_of_hit {label : UnwindKind} {sA : FunctionContext}
    (hsome : (popUntilCached label sA.scopes).2.2.isSome)
    (hcount : (popUntilCached label sA.scopes).1.countP
      (fun sc => !sc.cleanups.isEmpty) = 1) :
    ∃ b2 sB, trans_cleanups_to_exit_scope label sA = some (b2, sB) ∧
      sB.next_block = sA.next_block + 1 ∧
      ∃ nb : BlockData, sB.blocks = nb :: sA.blocks := by
  rcases hpuc : popUntilCached label sA.scopes with ⟨p2, r2, o2⟩
  rw [hpuc] at hsome hcount
  replace hsome : o2.isSome := hsome
  replace hcount : p2.countP (fun sc => !sc.cleanups.isEmpty) = 1 := hcount
  cases o2 with
  | none => simp at hsome
  | some hit =>
    obtain ⟨e2, n2⟩ := hit
    have hrun2 : trans_cleanups_to_exit_scope label sA =
        some (replay label p2.reverse e2 n2 { sA with scopes := r2 }) := by
      unfold trans_cleanups_to_exit_scope
      rw [hpuc]
    refine ⟨_, _, hrun2, ?_, ?_⟩
    · rw [replay_next_block]
      show sA.next_block + p2.reverse.countP (fun sc => !sc.cleanups.isEmpty) =
        sA.next_block + 1
      rw [List.countP_reverse, hcount]
    · obtain ⟨nbs, hb, hlen, -⟩ := replay_blocks label p2.reverse e2 n2
        { sA with scopes := r2 }
      rw [List.countP_reverse, hcount] at hlen
      obtain ⟨nb, rfl⟩ := List.length_eq_one.mp hlen
      exact ⟨nb, by rw [hb]; rfl⟩

/-- Running the exit-chain builder twice in a row for the same label, with
nothing scheduled in between, does not rebuild the chain, but it does
allocate exactly one fresh block: a cleanup-free block for the innermost
scope with pending cleanups (or a fresh resume block when no scope has
pending cleanups), placed in front of the blocks of the first run, which
are all kept. -/
theorem tcte_second_run {label : UnwindKind} {s : FunctionContext}
    {b1 : BasicBlockRef} {sA : FunctionContext}
    (hE : ∀ sc ∈ s.scopes, sc.cleanups = [] → sc.cached_early_exits = [])
    (h1 : trans_cleanups_to_exit_scope label s = some (b1, sA)) :
    ∃ b2 sB, trans_cleanups_to_exit_scope label sA = some (b2, sB) ∧
      sB.next_block = sA.next_block + 1 ∧
      ∃ nb : BlockData, sB.blocks = nb :: sA.blocks := by
  rcases tcte_eq_cases h1 with ⟨popped, remaining, e, n, hc, hrep⟩ |
    ⟨popped, remaining, rb, rs, hc, hg, hrep⟩
  · -- the first run hit a cache
    obtain ⟨L', hrel, hsc⟩ := replay_scopes_rel label
      popped.reverse e n { s with scopes := remaining }
    have h2 : (replay label popped.reverse e n { s with scopes := remaining }).2 = sA :=
      congrArg Prod.snd hrep
    have hF : List.Forall₂ (ReplayRel label) popped L'.reverse := by
      have := List.rel_reverse hrel
      rwa [List.reverse_reverse] at this
    have hmempop : ∀ a ∈ popped, a ∈ s.scopes := by
      intro a ha
      rw [← puc_decomp_eq hc]
      exact List.mem_append.mpr (Or.inl ha)
    have hAs : sA.scopes = L'.reverse ++ remaining := by
      rw [← h2]
      exact hsc
    have fE : ∀ sc' ∈ L'.reverse, sc'.cleanups = [] → sc'.cached_early_exits = [] := by
      intro sc' hmem h'
      obtain ⟨a, ha, har⟩ := forall2_mem_right hF hmem
      rcases har with ⟨hae, rfl⟩ | ⟨hane, e', _, _, rfl⟩
      · exact hE _ (hmempop _ ha) h'
      · exact absurd h' hane
    have fN : ∀ sc' ∈ L'.reverse, sc'.cleanups ≠ [] →
        (sc'.cached_early_exit label).isSome := by
      intro sc' hmem h'
      obtain ⟨a, ha, har⟩ := forall2_mem_right hF hmem
      exact replayRel_hit har h'
    have h22 : (popUntilCached label s.scopes).2.2 = some (e, n) := by rw [hc]
    obtain ⟨hsc0, hlast, hce0⟩ := puc_hit h22
    have hlast' : popped.getLast? = some hsc0 := by
      rw [hc] at hlast
      exact hlast
    have hsc0pop : hsc0 ∈ popped := mem_of_getLast?_eq hlast'
    have hsc0ne : hsc0.cleanups ≠ [] := by
      intro hemp
      obtain ⟨ce, hcem, -⟩ := cached_early_exit_mem hce0
      have : hsc0.cached_early_exits ≠ [] := List.ne_nil_of_mem hcem
      exact this (hE hsc0 (hmempop hsc0 hsc0pop) hemp)
    have hex : ∃ sc' ∈ L'.reverse, sc'.cleanups ≠ [] := by
      obtain ⟨b', hb', hbr⟩ := forall2_mem_left hF hsc0pop
      refine ⟨b', hb', ?_⟩
      rw [replayRel_cleanups hbr]
      exact hsc0ne
    obtain ⟨hw1, hw2⟩ := walk_hit L'.reverse remaining fE fN hex
    rw [← hAs] at hw1 hw2
    exact run2_of_hit hw1 hw2
  · -- the first run exhausted the stack and built a resume block
    obtain ⟨L', hrel, hsc⟩ := replay_scopes_rel label popped.reverse rb 0 rs
    have h2 : (replay label popped.reverse rb 0 rs).2 = sA :=
      congrArg Prod.snd hrep
    have hF : List.Forall₂ (ReplayRel label) popped L'.reverse := by
      have := List.rel_reverse hrel
      rwa [List.reverse_reverse] at this
    have h22 : (popUntilCached label s.scopes).2.2 = none := by rw [hc]
    obtain ⟨hp1, hp2, -⟩ := puc_none h22
    have hrem : remaining = [] := by
      rw [hc] at hp2
      exact hp2
    have hmempop : ∀ a ∈ popped, a ∈ s.scopes := by
      intro a ha
      rw [← puc_decomp_eq hc]
      exact List.mem_append.mpr (Or.inl ha)
    have hrs : rs.scopes = remaining := (genResume_spec hg).2.1
    have hAs : sA.scopes = L'.reverse ++ remaining := by
      rw [← h2, hsc, hrs]
    have fE : ∀ sc' ∈ L'.reverse, sc'.cleanups = [] → sc'.cached_early_exits = [] := by
      intro sc' hmem h'
      obtain ⟨a, ha, har⟩ := forall2_mem_right hF hmem
      rcases har with ⟨hae, rfl⟩ | ⟨hane, e', _, _, rfl⟩
      · exact hE _ (hmempop _ ha) h'
      · exact absurd h' hane
    by_cases hex : ∃ sc' ∈ L'.reverse, sc'.cleanups ≠ []
    · have fN : ∀ sc' ∈ L'.reverse, sc'.cleanups ≠ [] →
          (sc'.cached_early_exit label).isSome := by
        intro sc' hmem h'
        obtain ⟨a, ha, har⟩ := forall2_mem_right hF hmem
        exact replayRel_hit har h'
      obtain ⟨hw1, hw2⟩ := walk_hit L'.reverse remaining fE fN hex
      rw [← hAs] at hw1 hw2
      exact run2_of_hit hw1 hw2
    · -- every scope is empty: the second run rebuilds only the resume block
      push_neg at hex
      have hallnone : ∀ sc' ∈ sA.scopes, sc'.cached_early_exit label = none := by
        intro sc' hmem
        rw [hAs] at hmem
        rcases List.mem_append.mp hmem with hm | hm
        · exact cached_early_exit_of_empty (fE sc' hm (hex sc' hm)) label
        · rw [hrem] at hm
          simp at hm
      have hpuc2 : popUntilCached label sA.scopes = (sA.scopes, [], none) :=
        walk_none sA.scopes hallnone
      have hlp : label = UnwindKind.LandingPad → sA.landingpad_alloca.isSome := by
        intro hlbl
        rw [tcte_lpa h1]
        subst hlbl
        have hx := genResume_lp_alloca hg
        exact hx
      obtain ⟨⟨rb2, rs2⟩, hg2⟩ := Option.isSome_iff_exists.mp
        (@genResume_total label { sA with scopes := [] } hlp)
      have hrun2 : trans_cleanups_to_exit_scope label sA =
          some (replay label sA.scopes.reverse rb2 0 rs2) := by
        unfold trans_cleanups_to_exit_scope
        rw [hpuc2]
        show (match genResume label { sA with scopes := [] } with
            | none => none
            | some pr => some (replay label sA.scopes.reverse pr.1 0 pr.2)) = _
        rw [hg2]
      have hcount0 : sA.scopes.countP (fun sc => !sc.cleanups.isEmpty) = 0 := by
        rw [List.countP_eq_zero]
        intro sc' hmem
        rw [hAs, hrem] at hmem
        simp only [List.append_nil] at hmem
        simp [hex sc' hmem]
      refine ⟨_, _, hrun2, ?_, ?_⟩
      · rw [replay_next_block, (genResume_spec hg2).2.2.1]
        show sA.next_block + 1 + sA.scopes.reverse.countP (fun sc => !sc.cleanups.isEmpty) =
          sA.next_block + 1
        rw [List.countP_reverse, hcount0]
      · obtain ⟨nbs, hb, hlen, -⟩ := replay_blocks label sA.scopes.reverse rb2 0 rs2
        rw [List.countP_reverse, hcount0] at hlen
        obtain rfl := List.length_eq_zero.mp hlen
        obtain ⟨nb, hnb, -⟩ := (genResume_spec hg2).2.2.2.2.2.2
        refine ⟨nb, ?_⟩
        rw [hb, hnb]
        rfl

/-! ### Lemmas about scheduling and normal scope closure -/

theorem updateScopeAt_length (f : CleanupScope → CleanupScope) :
    ∀ (l : List CleanupScope) (n : Nat), (updateScopeAt n f l).length = l.length := by
  intro l
  induction l with
  | nil => intro n; simp [updateScopeAt]
  | cons sc rest ih =>
    intro n
    cases n with
    | zero => simp [updateScopeAt]
    | succ m => simp [updateScopeAt, ih m]

theorem updateScopeAt_get_eq (f : CleanupScope → CleanupScope) :
    ∀ (l : List CleanupScope) (n : Nat),
      (updateScopeAt n f l)[n]? = (l[n]?).map f := by
  intro l
  induction l with
  | nil => intro n; simp [updateScopeAt]
  | cons sc rest ih =>
    intro n
    cases n with
    | zero => simp [updateScopeAt]
    | succ m => simp [updateScopeAt, ih m]

theorem updateScopeAt_get_ne (f : CleanupScope → CleanupScope) :
    ∀ (l : List CleanupScope) (n m : Nat), ¬ m = n →
      (updateScopeAt n f l)[m]? = l[m]? := by
  intro l
  induction l with
  | nil => intro n m _; simp [updateScopeAt]
  | cons sc rest ih =>
    intro n m hm
    cases n with
    | zero =>
      cases m with
      | zero => exact absurd rfl hm
      | succ k => simp [updateScopeAt]
    | succ j =>
      cases m with
      | zero => simp [updateScopeAt]
      | succ k =>
        simp only [updateScopeAt]
        show (sc :: updateScopeAt j f rest)[k + 1]? = (sc :: rest)[k + 1]?
        simp [ih j k (fun hh => hm (by rw [hh]))]

theorem updateScopeAt_mem {f : CleanupScope → CleanupScope} :
    ∀ {l : List CleanupScope} {n : Nat} (sc' : CleanupScope),
      sc' ∈ updateScopeAt n f l → sc' ∈ l ∨ ∃ sc ∈ l, sc' = f sc := by
  intro l
  induction l with
  | nil => intro n sc' h; simp [updateScopeAt] at h
  | cons sc rest ih =>
    intro n sc' h
    cases n with
    | zero =>
      rcases List.mem_cons.mp h with rfl | h'
      · exact Or.inr ⟨sc, List.mem_cons_self _ _, rfl⟩
      · exact Or.inl (List.mem_cons_of_mem _ h')
    | succ m =>
      rcases List.mem_cons.mp h with rfl | h'
      · exact Or.inl (List.mem_cons_self _ _)
      · rcases ih sc' h' with hl | ⟨x, hx, hfx⟩
        · exact Or.inl (List.mem_cons_of_mem _ hl)
        · exact Or.inr ⟨x, List.mem_cons_of_mem _ hx, hfx⟩

theorem schedule_clean_spec {s : FunctionContext} {i : Nat} {c : DropValue}
    {s' : FunctionContext} (h : s.schedule_clean i c = some s') :
    i < s.scopes.length ∧
    s'.scopes = updateScopeAt (s.scopes.length - 1 - i) (schedUpd c) s.scopes ∧
    s'.landingpad_alloca = s.landingpad_alloca ∧ s'.blocks = s.blocks ∧
    s'.next_block = s.next_block ∧ s'.next_value = s.next_value ∧
    s'.wants_msvc_seh = s.wants_msvc_seh ∧
    s'.custom_unwind_resume = s.custom_unwind_resume := by
  unfold FunctionContext.schedule_clean at h
  by_cases hi : i < s.scopes.length
  · rw [if_pos hi] at h
    have h' : ({ s with scopes := updateScopeAt (s.scopes.length - 1 - i) (schedUpd c) s.scopes } : FunctionContext) = s' := Option.some.inj h
    rw [← h']
    exact ⟨hi, rfl, rfl, rfl, rfl, rfl, rfl, rfl⟩
  · rw [if_neg hi] at h
    simp at h

theorem pop_and_trans_spec {s : FunctionContext} {bcx : BasicBlockRef} {i : Nat}
    {b' : BasicBlockRef} {s' : FunctionContext}
    (h : s.pop_and_trans_custom_cleanup_scope bcx i = some (b', s')) :
    b' = bcx ∧ ∃ scope rest, s.scopes = scope :: rest ∧ i = s.scopes.length - 1 ∧
      s' = transDrops bcx scope.cleanups.reverse { s with scopes := rest } := by
  unfold FunctionContext.pop_and_trans_custom_cleanup_scope at h
  by_cases hcond : i < s.scopes.length ∧ i = s.scopes.length - 1
  · rw [if_pos hcond] at h
    cases hs : s.scopes with
    | nil =>
      rw [hs] at h
      simp at h
    | cons scope rest =>
      rw [hs] at h
      have h' : some (bcx,
          transDrops bcx scope.cleanups.reverse { s with scopes := rest }) =
          some (b', s') := h
      simp only [Option.some.injEq, Prod.mk.injEq] at h'
      exact ⟨h'.1.symm, scope, rest, rfl, hs ▸ hcond.2, h'.2.symm⟩
  · rw [if_neg hcond] at h
    simp at h

/-! ### The structural invariant holds in every reachable state -/

theorem scopeInv_new : ScopeInv CleanupScope.new := by
  constructor
  · intro e he
    simp [CleanupScope.new] at he
  · intro h
    simp [CleanupScope.new] at h

theorem scopeInv_schedUpd {c : DropValue} {sc : CleanupScope} (h : ScopeInv sc) :
    ScopeInv (schedUpd c sc) := by
  constructor
  · intro e he
    have := h.1 e he
    show e.last_cleanup ≤ (sc.cleanups ++ [c]).length
    rw [List.length_append]
    omega
  · intro _
    simp [schedUpd]

theorem stateInv_tcte {label : UnwindKind} {s : FunctionContext}
    {b : BasicBlockRef} {s' : FunctionContext}
    (h : trans_cleanups_to_exit_scope label s = some (b, s'))
    (hi : StateInv s) : StateInv s' := by
  intro sc' hmem
  obtain ⟨a, ha, har⟩ := forall2_mem_right (tcte_scopes_rel h) hmem
  exact scopeInv_of_tcteRel har (hi a ha)

theorem stateInv_glp {s : FunctionContext} {b : BasicBlockRef} {s' : FunctionContext}
    (h : get_landing_pad s = some (b, s')) (hi : StateInv s) : StateInv s' := by
  rcases glp_eq_cases h with ⟨popped, top, rest, hp, hcase⟩
  obtain ⟨hsplit, -, -⟩ := pni_decomp hp
  have hmem0 : ∀ sc ∈ popped ++ (top :: rest), ScopeInv sc := by
    intro sc hsc
    apply hi
    rw [← hsplit]
    exact hsc
  rcases hcase with ⟨hc, rfl⟩ | ⟨hc, pb, hm, rfl⟩
  · intro sc' hmem
    exact hmem0 sc' hmem
  · obtain ⟨hb, cb, htcte, hpb⟩ := glp_miss_spec hm
    have hrel := tcte_scopes_rel htcte
    have hin : (build_landing_pad_val
        (padState { s with scopes := top :: rest } top rest)
        ({ s with scopes := top :: rest } : FunctionContext).next_block).2.scopes =
        ({ top with cached_landing_pad := some s.next_block } : CleanupScope) :: rest := by
      rw [blpv_scopes]
      rfl
    rw [hin] at hrel
    intro sc' hmem
    have hmem' : sc' ∈ popped ++ pb.scopes := hmem
    rcases List.mem_append.mp hmem' with hm1 | hm2
    · exact hmem0 sc' (List.mem_append.mpr (Or.inl hm1))
    · have hscopes_pb : pb.scopes = cb.2.scopes := by
        rw [hpb, branch_scopes]
      rw [hscopes_pb] at hm2
      obtain ⟨a, ha, har⟩ := forall2_mem_right hrel hm2
      rcases List.mem_cons.mp ha with rfl | ha'
      · refine scopeInv_of_tcteRel har ?_
        have htopinv : ScopeInv top :=
          hmem0 top (List.mem_append.mpr (Or.inr (List.mem_cons_self _ _)))
        exact htopinv
      · exact scopeInv_of_tcteRel har
          (hmem0 a (List.mem_append.mpr (Or.inr (List.mem_cons_of_mem _ ha'))))

theorem stateInv_step {s s' : FunctionContext} (hs : Step s s')
    (hi : StateInv s) : StateInv s' := by
  cases hs with
  | push =>
    intro sc hmem
    rcases List.mem_cons.mp hmem with rfl | h'
    · exact scopeInv_new
    · exact hi sc h'
  | sched h =>
    obtain ⟨-, hsc, -⟩ := schedule_clean_spec h
    intro sc' hmem
    rw [hsc] at hmem
    rcases updateScopeAt_mem sc' hmem with hm | ⟨sc, hscm, rfl⟩
    · exact hi sc' hm
    · exact scopeInv_schedUpd (hi sc hscm)
  | poptrans h =>
    obtain ⟨-, scope, rest, hsc, -, rfl⟩ := pop_and_trans_spec h
    intro sc' hmem
    rw [transDrops_scopes] at hmem
    exact hi sc' (by rw [hsc]; exact List.mem_cons_of_mem _ hmem)
  | glp h => exact stateInv_glp h hi
  | tcte h => exact stateInv_tcte h hi

theorem stateInv_reachable {s : FunctionContext} (h : Reachable s) : StateInv s := by
  induction h with
  | init m c =>
    intro sc hmem
    simp [initState] at hmem
  | step hr hs ih => exact stateInv_step hs ih

/-- In a reachable state, a cache hit's consumed count is bounded by the
hit scope's cleanup count, and the hit scope has pending cleanups; the hit
scope is the last one popped, i.e. the first one replayed. -/
theorem reachable_hit_bound {label : UnwindKind} {s : FunctionContext}
    {e : BasicBlockRef} {n : Nat} (hr : Reachable s)
    (h : (popUntilCached label s.scopes).2.2 = some (e, n)) :
    ∃ sc, (popUntilCached label s.scopes).1.getLast? = some sc ∧
      n ≤ sc.cleanups.length ∧ sc.cleanups ≠ [] := by
  obtain ⟨sc, hlast, hce⟩ := puc_hit h
  have hmem : sc ∈ s.scopes := by
    rw [← puc_decomp label s.scopes]
    exact List.mem_append.mpr (Or.inl (mem_of_getLast?_eq hlast))
  have hinv := stateInv_reachable hr sc hmem
  obtain ⟨ce, hcem, -, -, hlast_cl⟩ := cached_early_exit_mem hce
  refine ⟨sc, hlast, ?_, ?_⟩
  · rw [← hlast_cl]
    exact hinv.1 ce hcem
  · exact hinv.2 (List.ne_nil_of_mem hcem)

/-! ### The claims -/

/-- Claim C1: every exit-chain computation (`trans_cleanups_to_exit_scope`)
and every landing-pad resolution (`get_landing_pad`) leaves the scope stack
at exactly the depth it had on entry, with the scopes (identified by their
cleanup lists) restored in their original order. -/
theorem c1_stack_depth_preserved :
    (∀ (label : UnwindKind) (s : FunctionContext) (b : BasicBlockRef)
        (s' : FunctionContext),
      trans_cleanups_to_exit_scope label s = some (b, s') →
      s'.scopes.length = s.scopes.length ∧
      s'.scopes.map CleanupScope.cleanups = s.scopes.map CleanupScope.cleanups) ∧
    (∀ (s : FunctionContext) (b : BasicBlockRef) (s' : FunctionContext),
      get_landing_pad s = some (b, s') →
      s'.scopes.length = s.scopes.length ∧
      s'.scopes.map CleanupScope.cleanups = s.scopes.map CleanupScope.cleanups) := by
  constructor
  · intro label s b s' h
    have hrel := tcte_stack_rel h
    exact ⟨hrel.length_eq.symm,
      (forall2_map_eq hrel (fun a b hab => hab.1.symm)).symm⟩
  · intro s b s' h
    have hrel := glp_scopes_rel h
    exact ⟨hrel.length_eq.symm,
      (forall2_map_eq hrel (fun a b hab => hab.1.symm)).symm⟩

/-- Witness for C1 at a concrete one-scope stack. -/
theorem c1_witness :
    trans_cleanups_to_exit_scope .LandingPad exOne = some (exOneR1.1, exOneR1.2) ∧
    (exOneR1.2.scopes.length = exOne.scopes.length ∧
     exOneR1.2.scopes.map CleanupScope.cleanups =
       exOne.scopes.map CleanupScope.cleanups) :=
  ⟨by decide,
   c1_stack_depth_preserved.1 .LandingPad exOne exOneR1.1 exOneR1.2 (by decide)⟩

/-- Claim C2: the cleanup actions of one scope are emitted in strict
reverse-of-scheduling order.  On normal close (`pop_and_trans…`, whose
success requires the index to be the current top) the popped scope's
reversed cleanup list is appended as drop-glue calls at the single threaded
code position, which is also returned; and every block generated by
`trans_cleanups_to_exit_scope` carries as its drop-glue content a suffix of
one scope's cleanups taken in reverse scheduling order. -/
theorem c2_reverse_order :
    (∀ (s : FunctionContext) (bcx : BasicBlockRef) (i : Nat)
        (b' : BasicBlockRef) (s' : FunctionContext),
      (s.blocks.find? (fun blk => blk.bid = bcx)).isSome →
      s.pop_and_trans_custom_cleanup_scope bcx i = some (b', s') →
      b' = bcx ∧ ∃ scope rest, s.scopes = scope :: rest ∧
        s'.blockInstrs bcx = s.blockInstrs bcx ++
          scope.cleanups.reverse.map
            (fun c => Instr.drop_glue c.val c.ty c.skip_dtor (s.blockFunclet bcx))) ∧
    (∀ (label : UnwindKind) (s : FunctionContext) (b : BasicBlockRef)
        (s' : FunctionContext),
      trans_cleanups_to_exit_scope label s = some (b, s') →
      ∃ nbs, s'.blocks = nbs ++ s.blocks ∧
        ∀ blk ∈ nbs, dropsOf blk.instrs = [] ∨
          ∃ sc ∈ s.scopes, ∃ k, k ≤ sc.cleanups.length ∧
            dropsOf blk.instrs = (sc.cleanups.reverse.take k).map DropValue.sig) := by
  constructor
  · intro s bcx i b' s' hblk h
    obtain ⟨hb, scope, rest, hsc, -, rfl⟩ := pop_and_trans_spec h
    refine ⟨hb, scope, rest, hsc, ?_⟩
    exact transDrops_blockInstrs bcx scope.cleanups.reverse
      { s with scopes := rest } hblk
  · intro label s b s' h
    exact tcte_blocks h

/-- Witness for C2 at concrete inputs: a normal close of a two-cleanup
scope, and the spec's two-scope exit chain. -/
theorem c2_witness :
    ((exPop.blocks.find? (fun blk => blk.bid = 0)).isSome ∧
     exPop.pop_and_trans_custom_cleanup_scope 0 0 = some (exPopR.1, exPopR.2) ∧
     (exPopR.1 = 0 ∧ ∃ scope rest, exPop.scopes = scope :: rest ∧
       exPopR.2.blockInstrs 0 = exPop.blockInstrs 0 ++
         scope.cleanups.reverse.map
           (fun c => Instr.drop_glue c.val c.ty c.skip_dtor (exPop.blockFunclet 0)))) ∧
    (trans_cleanups_to_exit_scope .LandingPad exC2 = some (exC2R.1, exC2R.2) ∧
     ∃ nbs, exC2R.2.blocks = nbs ++ exC2.blocks ∧
       ∀ blk ∈ nbs, dropsOf blk.instrs = [] ∨
         ∃ sc ∈ exC2.scopes, ∃ k, k ≤ sc.cleanups.length ∧
           dropsOf blk.instrs = (sc.cleanups.reverse.take k).map DropValue.sig) :=
  ⟨⟨by decide, by decide,
    c2_reverse_order.1 exPop 0 0 exPopR.1 exPopR.2 (by decide) (by decide)⟩,
   ⟨by decide,
    c2_reverse_order.2 .LandingPad exC2 exC2R.1 exC2R.2 (by decide)⟩⟩

/-- Counterexample for C3 as stated: running the exit-chain builder twice
in a row for the same label on an unchanged stack does not allocate zero
new blocks — the second run allocates a fresh block. -/
theorem c3_counterexample :
    trans_cleanups_to_exit_scope .LandingPad exOneR1.2 = some (exOneR2.1, exOneR2.2) ∧
    ¬ exOneR2.2.next_block = exOneR1.2.next_block := by
  decide

/-- Claim C3 (amended): for two consecutive exit-chain computations with a
tag-equal label and an unchanged stack, the second run reuses the blocks of
the first (all of them are kept, and nothing is re-emitted into them), but
it allocates exactly one new block rather than zero: a block that runs no
cleanups for the innermost scope with pending cleanups, branching to the
block cached by the first run, or a fresh terminal resume block when no
scope has pending cleanups.  The hypothesis that scopes without cleanups
carry no cached exits holds in every reachable state. -/
theorem c3_amended :
    ∀ (label : UnwindKind) (s : FunctionContext) (b1 : BasicBlockRef)
      (sA : FunctionContext),
      (∀ sc ∈ s.scopes, sc.cleanups = [] → sc.cached_early_exits = []) →
      trans_cleanups_to_exit_scope label s = some (b1, sA) →
      ∃ b2 sB, trans_cleanups_to_exit_scope label sA = some (b2, sB) ∧
        sB.next_block = sA.next_block + 1 ∧
        ∃ nb : BlockData, sB.blocks = nb :: sA.blocks :=
  fun _ _ _ _ hE h1 => tcte_second_run hE h1

/-- Witness for the amended C3 at a concrete one-scope stack. -/
theorem c3_amended_witness :
    (∀ sc ∈ exOne.scopes, sc.cleanups = [] → sc.cached_early_exits = []) ∧
    trans_cleanups_to_exit_scope .LandingPad exOne = some (exOneR1.1, exOneR1.2) ∧
    (∃ b2 sB, trans_cleanups_to_exit_scope .LandingPad exOneR1.2 = some (b2, sB) ∧
      sB.next_block = exOneR1.2.next_block + 1 ∧
      ∃ nb : BlockData, sB.blocks = nb :: exOneR1.2.blocks) :=
  ⟨by decide, by decide,
   c3_amended .LandingPad exOne exOneR1.1 exOneR1.2 (by decide) (by decide)⟩

/-- Claim C4 (code bug): after one exit-chain computation over scopes
A(`dv 1`), M(`dv 2`), T(`dv 3`), exactly one cleanup (`dv 42`) is scheduled
into the intermediate scope M (stable index 1) and the computation is
repeated for the same label.  Contrary to the claim, the second computation
does not regenerate the blocks from M outward: `schedule_clean` clears only
`cached_landing_pad`, never the cached early exits, so the stale cache of
the inner scope T short-circuits the walk and the returned chain never runs
the newly scheduled action — no drop of `dv 42` is ever emitted into any
block. -/
theorem c4_stale_early_exit_bug :
    (exMidR1.2.schedule_clean 1 (dv 42) = some exMidSched) ∧
    (exMidSched.scopes.map CleanupScope.cleanups =
      [[dv 3], [dv 2, dv 42], [dv 1]]) ∧
    trans_cleanups_to_exit_scope .LandingPad exMidSched =
      some (exMidR2.1, exMidR2.2) ∧
    exMidR2.2.blocks.all
      (fun blk => blk.instrs.all (fun i => !(dropsVal 42 i))) = true := by
  decide

/-- Claim C5 (code bug): scheduling a new cleanup (`dv 42`) into scope A,
whose landing pad was cached by an earlier resolution, does set A's
`cached_landing_pad` to none; but the subsequent `get_landing_pad` returns
the inner scope T's stale cached pad unchanged, and the chain behind it
never runs the new action — no drop of `dv 42` is emitted into any
block. -/
theorem c5_stale_landing_pad_bug :
    (exPadG2.2.scopes.map CleanupScope.cached_landing_pad =
      [some exPadG2.1, some exPadG1.1]) ∧
    (exPadG2.2.schedule_clean 0 (dv 42) = some exPadE) ∧
    (exPadE.scopes.map CleanupScope.cached_landing_pad =
      [some exPadG2.1, none]) ∧
    get_landing_pad exPadE = some (exPadG3.1, exPadG3.2) ∧
    exPadG3.1 = exPadG2.1 ∧
    exPadG3.2.blocks.all
      (fun blk => blk.instrs.all (fun i => !(dropsVal 42 i))) = true := by
  decide

/-- Claim C6: resolving the landing pad again with the stack unchanged
returns the identical cached block handle and the identical state, the
handle being the one stored in the owning scope's `cached_landing_pad`;
hence every further call returns it as well. -/
theorem c6_landing_pad_idempotent :
    ∀ (s : FunctionContext) (p : BasicBlockRef) (s1 : FunctionContext),
      get_landing_pad s = some (p, s1) →
      get_landing_pad s1 = some (p, s1) ∧
      ∃ sc ∈ s1.scopes, sc.cached_landing_pad = some p :=
  fun _ _ _ h => glp_idem h

/-- Witness for C6 at a concrete resolution. -/
theorem c6_witness :
    get_landing_pad exPadB = some (exPadG1.1, exPadG1.2) ∧
    (get_landing_pad exPadG1.2 = some (exPadG1.1, exPadG1.2) ∧
     ∃ sc ∈ exPadG1.2.scopes, sc.cached_landing_pad = some exPadG1.1) :=
  ⟨by decide,
   c6_landing_pad_idempotent exPadB exPadG1.1 exPadG1.2 (by decide)⟩

/-- Claim C7: on an empty scope stack the exit-chain builder iterates over
no scopes and synthesizes exactly one terminal resume block.  Under the
table protocol it reloads the stored exception record from the per-function
scratch local and resumes (or, when the target requires an explicit call,
calls the unwind-resume entry point with the exception pointer extracted
from the record); under the funclet protocol it emits a fresh cleanup pad
followed by a cleanup-return with no successor.  Nothing else changes. -/
theorem c7_empty_stack_resume :
    (∀ (s : FunctionContext) (addr : ValueRef), s.scopes = [] →
      s.landingpad_alloca = some addr →
      trans_cleanups_to_exit_scope .LandingPad s =
        some (s.next_block, resumeStateLP s addr)) ∧
    (∀ (s : FunctionContext) (v : ValueRef), s.scopes = [] →
      trans_cleanups_to_exit_scope (.CleanupPad v) s =
        some (s.next_block, resumeStateCP s)) := by
  constructor
  · intro s addr hsc hlpa
    obtain ⟨scopes, lpa, blocks, nb, nv, msvc, cur⟩ := s
    simp only at hsc hlpa
    subst hsc
    subst hlpa
    cases cur <;>
      simp [trans_cleanups_to_exit_scope, popUntilCached, genResume, replay,
        resumeStateLP, resumeInstrsLP, FunctionContext.build_new_block,
        FunctionContext.fresh, FunctionContext.emit, updateBlocks,
        FunctionContext.blockFunclet]
  · intro s v hsc
    obtain ⟨scopes, lpa, blocks, nb, nv, msvc, cur⟩ := s
    simp only at hsc
    subst hsc
    simp [trans_cleanups_to_exit_scope, popUntilCached, genResume, replay,
      resumeStateCP, FunctionContext.build_new_block, FunctionContext.fresh,
      FunctionContext.emit, updateBlocks]

/-- Witness for C7: both protocols at concrete empty-stack states. -/
theorem c7_witness :
    ((⟨[], some 5, [], 10, 20, false, false⟩ : FunctionContext).scopes = [] ∧
     (⟨[], some 5, [], 10, 20, false, false⟩ : FunctionContext).landingpad_alloca = some 5 ∧
     trans_cleanups_to_exit_scope .LandingPad ⟨[], some 5, [], 10, 20, false, false⟩ =
       some (10, resumeStateLP ⟨[], some 5, [], 10, 20, false, false⟩ 5)) ∧
    ((⟨[], none, [], 3, 4, true, false⟩ : FunctionContext).scopes = [] ∧
     trans_cleanups_to_exit_scope (.CleanupPad 9) ⟨[], none, [], 3, 4, true, false⟩ =
       some (3, resumeStateCP ⟨[], none, [], 3, 4, true, false⟩)) :=
  ⟨⟨rfl, rfl, c7_empty_stack_resume.1 ⟨[], some 5, [], 10, 20, false, false⟩ 5 rfl rfl⟩,
   ⟨rfl, c7_empty_stack_resume.2 ⟨[], none, [], 3, 4, true, false⟩ 9 rfl⟩⟩

/-- Claim C8: equality on unwind labels is decided by tag alone —
`LandingPad` equals `LandingPad`, any two `CleanupPad` values are equal
regardless of payload, the tags are never equal to each other — and
consequently cached-early-exit lookup treats every `CleanupPad` label as
the same cache key. -/
theorem c8_tag_only_equality :
    (∀ p q : ValueRef, UnwindKind.eq (.CleanupPad p) (.CleanupPad q) = true) ∧
    (UnwindKind.eq .LandingPad .LandingPad = true) ∧
    (∀ p : ValueRef, UnwindKind.eq .LandingPad (.CleanupPad p) = false ∧
      UnwindKind.eq (.CleanupPad p) .LandingPad = false) ∧
    (∀ (sc : CleanupScope) (p q : ValueRef),
      sc.cached_early_exit (.CleanupPad p) = sc.cached_early_exit (.CleanupPad q)) :=
  ⟨fun _ _ => rfl, rfl, fun _ => ⟨rfl, rfl⟩,
   fun sc p q => cached_early_exit_pad_congr sc p q⟩

/-- Claim C9: `schedule_clean` modifies only the addressed scope — it
appends one cleanup and clears that scope's `cached_landing_pad`, leaving
its cached early exits untouched and every other scope unchanged — and no
operation of the interface ever removes or clears a cached early-exit entry
of a surviving scope: pushing adds a fresh empty scope, normal close
removes only the top scope, and both chain builders only append new
entries. -/
theorem c9_frame_conditions :
    (∀ (s : FunctionContext) (i : Nat) (c : DropValue) (s' : FunctionContext),
      s.schedule_clean i c = some s' →
      s'.scopes.length = s.scopes.length ∧
      s'.scopes[s.scopes.length - 1 - i]? =
        (s.scopes[s.scopes.length - 1 - i]?).map (schedUpd c) ∧
      (∀ j : Nat, ¬ j = s.scopes.length - 1 - i → s'.scopes[j]? = s.scopes[j]?) ∧
      (∀ j : Nat, (s'.scopes[j]?).map CleanupScope.cached_early_exits =
        (s.scopes[j]?).map CleanupScope.cached_early_exits)) ∧
    (∀ (label : UnwindKind) (s : FunctionContext) (b : BasicBlockRef)
        (s' : FunctionContext),
      trans_cleanups_to_exit_scope label s = some (b, s') →
      List.Forall₂ (fun a b : CleanupScope =>
        ∃ t, b.cached_early_exits = a.cached_early_exits ++ t) s.scopes s'.scopes) ∧
    (∀ (s : FunctionContext) (b : BasicBlockRef) (s' : FunctionContext),
      get_landing_pad s = some (b, s') →
      List.Forall₂ (fun a b : CleanupScope =>
        ∃ t, b.cached_early_exits = a.cached_early_exits ++ t) s.scopes s'.scopes) ∧
    (∀ (s : FunctionContext) (bcx : BasicBlockRef) (i : Nat)
        (b' : BasicBlockRef) (s' : FunctionContext),
      s.pop_and_trans_custom_cleanup_scope bcx i = some (b', s') →
      s'.scopes = s.scopes.tail) ∧
    (∀ s : FunctionContext,
      (s.push_custom_cleanup_scope).2.scopes = CleanupScope.new :: s.scopes) := by
  refine ⟨?_, ?_, ?_, ?_, ?_⟩
  · intro s i c s' h
    obtain ⟨hi, hsc, -⟩ := schedule_clean_spec h
    refine ⟨by rw [hsc, updateScopeAt_length], by rw [hsc, updateScopeAt_get_eq], ?_, ?_⟩
    · intro j hj
      rw [hsc, updateScopeAt_get_ne _ _ _ _ hj]
    · intro j
      by_cases hj : j = s.scopes.length - 1 - i
      · subst hj
        rw [hsc, updateScopeAt_get_eq, Option.map_map]
        have hfun : CleanupScope.cached_early_exits ∘ schedUpd c =
            CleanupScope.cached_early_exits := funext (fun sc => rfl)
        rw [hfun]
      · rw [hsc, updateScopeAt_get_ne _ _ _ _ hj]
  · intro label s b s' h
    exact (tcte_stack_rel h).imp (fun a b hab => hab.2.2)
  · intro s b s' h
    exact (glp_scopes_rel h).imp (fun a b hab => hab.2.1)
  · intro s bcx i b' s' h
    obtain ⟨-, scope, rest, hsc, -, rfl⟩ := pop_and_trans_spec h
    rw [transDrops_scopes]
    show rest = s.scopes.tail
    rw [hsc]
    rfl
  · intro s
    rfl

/-- Witness for C9 at concrete inputs. -/
theorem c9_witness :
    (exPadG2.2.schedule_clean 0 (dv 42) = some exPadE ∧
     (exPadE.scopes.length = exPadG2.2.scopes.length ∧
      exPadE.scopes[exPadG2.2.scopes.length - 1 - 0]? =
        (exPadG2.2.scopes[exPadG2.2.scopes.length - 1 - 0]?).map (schedUpd (dv 42)) ∧
      (∀ j : Nat, ¬ j = exPadG2.2.scopes.length - 1 - 0 →
        exPadE.scopes[j]? = exPadG2.2.scopes[j]?) ∧
      (∀ j : Nat, (exPadE.scopes[j]?).map CleanupScope.cached_early_exits =
        (exPadG2.2.scopes[j]?).map CleanupScope.cached_early_exits))) ∧
    (trans_cleanups_to_exit_scope .LandingPad exC2 = some (exC2R.1, exC2R.2) ∧
     List.Forall₂ (fun a b : CleanupScope =>
       ∃ t, b.cached_early_exits = a.cached_early_exits ++ t)
       exC2.scopes exC2R.2.scopes) ∧
    (exPop.pop_and_trans_custom_cleanup_scope 0 0 = some (exPopR.1, exPopR.2) ∧
     exPopR.2.scopes = exPop.scopes.tail) ∧
    ((exPadA.push_custom_cleanup_scope).2.scopes = CleanupScope.new :: exPadA.scopes) :=
  ⟨⟨by decide,
    c9_frame_conditions.1 exPadG2.2 0 (dv 42) exPadE (by decide)⟩,
   ⟨by decide,
    c9_frame_conditions.2.1 .LandingPad exC2 exC2R.1 exC2R.2 (by decide)⟩,
   ⟨by decide,
    c9_frame_conditions.2.2.2.1 exPop 0 0 exPopR.1 exPopR.2 (by decide)⟩,
   c9_frame_conditions.2.2.2.2 exPadA⟩

/-- Claim C10: in every reachable state the consumed count of each cached
early exit is at most the current length of its owning scope's cleanup
list, and only scopes with pending cleanups carry cached exits; hence in a
reachable state a cache hit's skip count never exceeds the hit scope's
cleanup count (`len - skip` cannot underflow), and a scope with pending
cleanups resets the skip to zero for all scopes replayed after it, so the
nonzero skip applies only to the first scope replayed. -/
theorem c10_consumed_count_bound :
    (∀ s : FunctionContext, Reachable s → ∀ sc ∈ s.scopes,
      (∀ e ∈ sc.cached_early_exits, e.last_cleanup ≤ sc.cleanups.length) ∧
      (sc.cached_early_exits ≠ [] → sc.cleanups ≠ [])) ∧
    (∀ (label : UnwindKind) (s : FunctionContext) (e : BasicBlockRef) (n : Nat),
      Reachable s → (popUntilCached label s.scopes).2.2 = some (e, n) →
      ∃ sc, (popUntilCached label s.scopes).1.getLast? = some sc ∧
        n ≤ sc.cleanups.length ∧ sc.cleanups ≠ []) ∧
    (∀ (label : UnwindKind) (sc : CleanupScope) (rest : List CleanupScope)
        (prev : BasicBlockRef) (skip : Nat) (s : FunctionContext),
      ¬ sc.cleanups.isEmpty →
      ∃ b1 s1, replay label (sc :: rest) prev skip s = replay label rest b1 0 s1) := by
  refine ⟨?_, ?_, ?_⟩
  · intro s hr sc hmem
    exact stateInv_reachable hr sc hmem
  · intro label s e n hr h
    exact reachable_hit_bound hr h
  · intro label sc rest prev skip s hne
    exact ⟨_, _, replay_cons_gen label sc rest prev skip s hne⟩

/-- Witness for C10 at a concrete reachable state with a cache hit. -/
theorem c10_witness :
    Reachable exReach3 ∧
    (∀ sc ∈ exReach3.scopes,
      (∀ e ∈ sc.cached_early_exits, e.last_cleanup ≤ sc.cleanups.length) ∧
      (sc.cached_early_exits ≠ [] → sc.cleanups ≠ [])) ∧
    (popUntilCached (.CleanupPad 5) exReach3.scopes).2.2 = some (1, 1) ∧
    (∃ sc, (popUntilCached (.CleanupPad 5) exReach3.scopes).1.getLast? = some sc ∧
      1 ≤ sc.cleanups.length ∧ sc.cleanups ≠ []) ∧
    (¬ (⟨[dv 7], [], none⟩ : CleanupScope).cleanups.isEmpty ∧
     ∃ b1 s1, replay (.CleanupPad 5) [⟨[dv 7], [], none⟩] 1 1 exReach3 =
       replay (.CleanupPad 5) [] b1 0 s1) := by
  have hreach : Reachable exReach3 :=
    Reachable.step
      (Reachable.step
        (Reachable.step (Reachable.init false false) (Step.push (initState false false)))
        (Step.sched (show exReach1.schedule_clean 0 (dv 7) = some exReach2 by decide)))
      (Step.tcte (show trans_cleanups_to_exit_scope (.CleanupPad 0) exReach2 =
        some (1, exReach3) by decide))
  refine ⟨hreach, c10_consumed_count_bound.1 exReach3 hreach, by decide,
    c10_consumed_count_bound.2.1 (.CleanupPad 5) exReach3 1 1 hreach (by decide),
    by decide,
    c10_consumed_count_bound.2.2 (.CleanupPad 5) ⟨[dv 7], [], none⟩ [] 1 1 exReach3
      (by decide)⟩

end Cleanup
